import Mathlib

/-!
Verification of the NDK build/test orchestration code against its
natural-language specification.

The Python sources embedded here are:
  - ndk/test/builder.py   (result fixups, `_run_test`, `_desired_api_level`)
  - ndk/test/spec.py      (`BuildConfiguration.__str__` / `from_string`)
  - ndk/checkbuild.py     (`get_transitive_module_deps`, `get_modules_to_build`,
                           `launch_buildable`, `wait_for_build`)

Collaborator modules that are not part of the given sources
(ndk/test/result.py, ndk/deps.py, ndk/workqueue.py, ndk/abis.py) are modelled
from the specification; each such definition says so in its doc comment.
-/

/- ===================== Definitions ===================== -/

/-- Modelled from the spec: the tagged result variants of ndk/test/result.py
(the file is not under src/). Spec section 3: a Test Result is a "tagged
variant over Success, Failure, Skipped, ExpectedFailure, UnexpectedSuccess,
each carrying the originating Test Case and, for failures, a message".
Constructor argument lists follow the call sites in ndk/test/builder.py:
Success(test), Failure(test, message), Skipped(test, message),
ExpectedFailure(test, message, config, bug), UnexpectedSuccess(test, config,
bug).  The originating test is identified by its name. -/
inductive TestResult where
  | Success (test : String)
  | Failure (test : String) (message : String)
  | Skipped (test : String) (message : String)
  | ExpectedFailure (test : String) (message : String) (config : String) (bug : String)
  | UnexpectedSuccess (test : String) (config : String) (bug : String)
  deriving DecidableEq, Repr

/-- Modelled from the spec: the Test interface consumed by `_run_test` in
ndk/test/builder.py (ndk/test/buildtest/case.py is not under src/).  The
fields record the answers of the pluggable predicate provider of
ndk/test/config.py and the outcome of the build action:
check_unsupported() returns an unsupported configuration name or None;
is_negative_test() returns a bool; check_broken() returns a
(configuration, bug) pair or (None, None) (ndk/test/config.py build_broken);
run(obj_dir, dist_dir, test_filters) either raises (the Except.error case,
carrying the traceback text) or returns a (TestResult, additional tests)
pair.  Purity of the fields reflects the spec's predicate-provider contract
("pure functions of (test, configuration); they must not mutate shared
state"). -/
inductive TestCase where
  | mk
    (name : String)
    (check_unsupported : Option String)
    (is_negative_test : Bool)
    (check_broken : Option (String × String))
    (run : Except String (TestResult × List TestCase))

/-- Accessor for the test name. -/
def TestCase.name : TestCase → String
  | .mk n _ _ _ _ => n

/-- Accessor for check_unsupported(). -/
def TestCase.check_unsupported : TestCase → Option String
  | .mk _ u _ _ _ => u

/-- Accessor for is_negative_test(). -/
def TestCase.is_negative_test : TestCase → Bool
  | .mk _ _ neg _ _ => neg

/-- Accessor for check_broken(). -/
def TestCase.check_broken : TestCase → Option (String × String)
  | .mk _ _ _ br _ => br

/-- Accessor for the outcome of the build action run(). -/
def TestCase.run : TestCase → Except String (TestResult × List TestCase)
  | .mk _ _ _ _ r => r

/-- Replaces the build action of a test, leaving the predicates unchanged.
Used to express that a code path never invokes the build action: its output
does not depend on this field. -/
def TestCase.with_run
    (t : TestCase) (r : Except String (TestResult × List TestCase)) : TestCase :=
  .mk t.name t.check_unsupported t.is_negative_test t.check_broken r

/-- Embeds _fixup_expected_failure from ndk/test/builder.py: a Failure becomes
an ExpectedFailure and a Success becomes an UnexpectedSuccess, each tagged
with the configuration and bug; Skipped, UnexpectedSuccess, or
ExpectedFailure pass through. -/
def fixup_expected_failure (result : TestResult) (config bug : String) : TestResult :=
  match result with
  | .Failure test message => .ExpectedFailure test message config bug
  | .Success test => .UnexpectedSuccess test config bug
  | r => r

/-- Embeds _fixup_negative_test from ndk/test/builder.py: a Failure becomes a
Success and a Success becomes a Failure with message "negative test case
succeeded"; Skipped, UnexpectedSuccess, or ExpectedFailure pass through. -/
def fixup_negative_test (result : TestResult) : TestResult :=
  match result with
  | .Failure test _ => .Success test
  | .Success test => .Failure test "negative test case succeeded"
  | r => r

/-- Embeds _run_test from ndk/test/builder.py.  The worker.status assignment
is display-only and omitted.  If check_unsupported() gives a configuration,
the test short-circuits to Skipped with no additional tests.  Otherwise the
build action runs inside a try block: an exception becomes a Failure carrying
traceback.format_exc() (modelled as the exception text) with no additional
tests; a normal return is put through the negative-test inversion exactly
when is_negative_test() holds and then through the expected-failure fixup
exactly when check_broken() gives a configuration.  The function always
returns a (suite, result, additional tests) triple; the Python exception
never escapes the function body. -/
def run_test (suite : String) (test : TestCase) :
    String × TestResult × List TestCase :=
  match test.check_unsupported with
  | some config =>
    (suite, TestResult.Skipped test.name ("test unsupported for " ++ config), [])
  | none =>
    match test.run with
    | .error exc => (suite, TestResult.Failure test.name exc, [])
    | .ok (result, additional_tests) =>
      let result := if test.is_negative_test then fixup_negative_test result else result
      let result :=
        match test.check_broken with
        | some (config, bug) => fixup_expected_failure result config bug
        | none => result
      (suite, result, additional_tests)

/-- Helper naming the classification pipeline applied to a normally returned
result in _run_test: the negative-test inversion first, then the broken
configuration fixup. -/
def classify (test : TestCase) (result : TestResult) : TestResult :=
  let r := if test.is_negative_test then fixup_negative_test result else result
  match test.check_broken with
  | some (config, bug) => fixup_expected_failure r config bug
  | none => r

/-- Concrete negative test whose build action fails, for witnesses. -/
def negFailTest : TestCase :=
  .mk "neg_fail" none true none (.ok (.Failure "neg_fail" "compiler error", []))

/-- Concrete negative test whose build action succeeds, for witnesses. -/
def negPassTest : TestCase :=
  .mk "neg_pass" none true none (.ok (.Success "neg_pass", []))

/-- Concrete broken-configuration test whose build action fails, for
witnesses. -/
def brokenFailTest : TestCase :=
  .mk "broken" none false (some ("x86", "http://b/123"))
    (.ok (.Failure "broken" "boom", []))

/-- Concrete unsupported test, for witnesses. -/
def unsupportedTest : TestCase :=
  .mk "unsup" (some "armeabi-v7a-21-legacy") false none (.ok (.Success "unsup", []))

/-- Concrete test whose build action raises, for witnesses. -/
def raisingTest : TestCase :=
  .mk "raiser" none false none (.error "Traceback: ValueError")

/-- Python dict indexing devices[api] for the qa_config device table
(dict from API level to list of ABI names; ndk/abis.py Abi is a plain string
newtype, so ABI names are strings here), embedded as association-list lookup.
The Python dict has unique keys; _desired_api_level only indexes with keys of
the dict, so the default branch is unreachable there. -/
def dict_get (devices : List (Int × List String)) (api : Int) : List String :=
  match devices with
  | [] => []
  | (k, v) :: rest => if k = api then v else dict_get rest api

/-- Embeds the loop of _desired_api_level from ndk/test/builder.py over an
explicit key list: keys below min_api are skipped with continue, and the
first remaining key whose ABI list contains abi is returned. -/
def desired_api_scan (min_api : Int) (abi : String)
    (devices : List (Int × List String)) : List Int → Option Int
  | [] => none
  | api :: rest =>
    if api < min_api then desired_api_scan min_api abi devices rest
    else if abi ∈ dict_get devices api then some api
    else desired_api_scan min_api abi devices rest

/-- Embeds _desired_api_level from ndk/test/builder.py: iterate over
sorted(devices.keys()); skip keys below min_api; return the first key whose
ABI list contains abi.  The none value embeds the RuntimeError raised when
the loop falls through. -/
def desired_api_level (min_api : Int) (abi : String)
    (devices : List (Int × List String)) : Option Int :=
  desired_api_scan min_api abi devices
    (List.insertionSort (· ≤ ·) (devices.map Prod.fst))

/-- Concrete device table for witnesses, in the shape of qa_config.json. -/
def devicesExample : List (Int × List String) :=
  [(30, ["arm64-v8a", "x86_64"]), (21, ["armeabi-v7a"])]

/-- Decimal digit characters of a natural number with explicit fuel; with
fuel above n this produces the canonical decimal form (no leading zeros),
matching Python str on a non-negative int. -/
def natCharsFuel : Nat → Nat → List Char
  | 0, _ => []
  | fuel + 1, n =>
    if n < 10 then [Nat.digitChar n]
    else natCharsFuel fuel (n / 10) ++ [Nat.digitChar (n % 10)]

/-- Canonical decimal digit characters of a natural number. -/
def natChars (n : Nat) : List Char :=
  natCharsFuel (n + 1) n

/-- Python str on an int: canonical decimal digits, with a leading minus sign
for negative values. -/
def intChars (i : Int) : List Char :=
  if i < 0 then '-' :: natChars i.natAbs else natChars i.toNat

/-- Value of a decimal digit character, none for a non-digit. -/
def charDigit (c : Char) : Option Nat :=
  if '0' ≤ c ∧ c ≤ '9' then some (c.toNat - '0'.toNat) else none

/-- Left-to-right decimal accumulator over digit characters; none as soon as
a non-digit is met. -/
def parseNatAux : Nat → List Char → Option Nat
  | acc, [] => some acc
  | acc, c :: cs =>
    match charDigit c with
    | some d => parseNatAux (10 * acc + d) cs
    | none => none

/-- Python int() applied to a string, embedded over character lists: an
optional minus sign followed by at least one decimal digit; none embeds the
ValueError raise.  (Python int() additionally strips whitespace and accepts a
plus sign and digit-group underscores; from_string never receives such
inputs, so those lenient forms are not modelled.) -/
def parseInt (l : List Char) : Option Int :=
  if l.head? = some '-' then
    if l.tail = [] then none
    else (parseNatAux 0 l.tail).map (fun n : Nat => -(n : Int))
  else if l = [] then none
  else (parseNatAux 0 l).map (fun n : Nat => (n : Int))

/-- Python str.partition("-") over character lists, keeping the part before
the first dash and the part after it (the whole string and an empty tail when
no dash occurs, as in Python). -/
def partitionDash : List Char → List Char × List Char
  | [] => ([], [])
  | c :: cs =>
    if c = '-' then ([], cs)
    else
      let p := partitionDash cs
      (c :: p.1, p.2)

/-- Python str.split("-") over character lists, including empty fields. -/
def splitDash : List Char → List (List Char)
  | [] => [[]]
  | c :: cs =>
    match splitDash cs with
    | [] => []
    | h :: t => if c = '-' then [] :: h :: t else (c :: h) :: t

/-- Embeds the CMakeToolchainFile enum of ndk/test/spec.py (Legacy has value
"legacy", Default has value "new"). -/
inductive CMakeToolchainFile where
  | Legacy
  | Default
  deriving DecidableEq, Repr

/-- Embeds CMakeToolchainFile.value. -/
def CMakeToolchainFile.value : CMakeToolchainFile → List Char
  | .Legacy => ['l', 'e', 'g', 'a', 'c', 'y']
  | .Default => ['n', 'e', 'w']

/-- Embeds the Python enum constructor CMakeToolchainFile(value): lookup of a
member by its value, ValueError (none) when no member matches. -/
def cmakeToolchainFileOfValue (s : List Char) : Option CMakeToolchainFile :=
  if s = ['l', 'e', 'g', 'a', 'c', 'y'] then some .Legacy
  else if s = ['n', 'e', 'w'] then some .Default
  else none

/-- Embeds the BuildConfiguration dataclass of ndk/test/spec.py: an ABI name,
an optional API level, and a toolchain-file variant.  Strings are embedded as
character lists. -/
structure BuildConfiguration where
  abi : List Char
  api : Option Int
  toolchain_file : CMakeToolchainFile
  deriving DecidableEq, Repr

/-- Embeds BuildConfiguration.__str__: "-".join([abi, str(api),
toolchain_file.value]), where Python str of the optional api renders None as
"None". -/
def BuildConfiguration.str (c : BuildConfiguration) : List Char :=
  c.abi ++ '-' ::
    ((match c.api with
      | some a => intChars a
      | none => ['N', 'o', 'n', 'e']) ++ '-' :: c.toolchain_file.value)

/-- Embeds BuildConfiguration.from_string from ndk/test/spec.py: partition at
the first dash; reassemble the two-dash ABI names armeabi-v7a and arm64-v8a;
then split the remainder on dashes into exactly an API-level field and a
toolchain-file field.  none embeds the ValueError paths: a remainder without
exactly two fields, int() failing, or an unknown toolchain-file value. -/
def BuildConfiguration.from_string (config_string : List Char) :
    Option BuildConfiguration :=
  let p := partitionDash config_string
  let q : List Char × List Char :=
    if p.1 = ['a', 'r', 'm', 'e', 'a', 'b', 'i']
        ∧ List.isPrefixOf ['v', '7', 'a', '-'] p.2 then
      (p.1 ++ ['-', 'v', '7', 'a'], (partitionDash p.2).2)
    else if p.1 = ['a', 'r', 'm', '6', '4']
        ∧ List.isPrefixOf ['v', '8', 'a', '-'] p.2 then
      (p.1 ++ ['-', 'v', '8', 'a'], (partitionDash p.2).2)
    else p
  match splitDash q.2 with
  | [api_str, toolchain_file_str] =>
    match parseInt api_str, cmakeToolchainFileOfValue toolchain_file_str with
    | some api, some tc => some ⟨q.1, some api, tc⟩
    | some _, none => none
    | none, _ => none
  | _ => none

/-- Modelled from the spec: the NDK ABI names (ndk/abis.py with ALL_ABIS is
not under src/).  The four names recur across the repository, for example in
the arch tables of ndk/checkbuild.py and build/tools/make_standalone_toolchain.py:
armeabi-v7a, arm64-v8a, x86, x86_64. -/
def NDK_ABIS : List (List Char) :=
  [['a', 'r', 'm', 'e', 'a', 'b', 'i', '-', 'v', '7', 'a'],
   ['a', 'r', 'm', '6', '4', '-', 'v', '8', 'a'],
   ['x', '8', '6'],
   ['x', '8', '6', '_', '6', '4']]

/-- Registry of buildable modules: NAMES_TO_MODULES from ndk/checkbuild.py
as an association list from module name to the module's dependency name list
(module names are unique; deps is the only module attribute these functions
consult).  Lookup embeds both the Python membership test
name in NAMES_TO_MODULES and the indexing NAMES_TO_MODULES[name]. -/
def reg_find (reg : List (String × List String)) (name : String) :
    Option (List String) :=
  match reg with
  | [] => none
  | (k, v) :: rest => if k = name then some v else reg_find rest name

/-- The set of module names registered in NAMES_TO_MODULES. -/
def regKeys (reg : List (String × List String)) : Finset String :=
  (reg.map Prod.fst).toFinset

/-- Mutable state threaded through _get_transitive_module_deps: the deps,
unknown_deps and seen sets (sets of module names; Python holds Module
objects, which are in bijection with their unique names). -/
structure DepsState where
  deps : Finset String
  unknown_deps : Finset String
  seen : Finset String
  deriving DecidableEq

mutual

/-- Embeds _get_transitive_module_deps from ndk/checkbuild.py, with explicit
fuel standing in for the Python call stack: mark the module seen, then walk
its dependency names.  Fuel zero returns the state unchanged; the
transitive_deps theorems show that any fuel above the registry size gives
the same result, because the recursion only ever descends into unseen
registry modules. -/
def get_transitive_module_deps_rec (reg : List (String × List String)) :
    Nat → String → DepsState → DepsState
  | 0, _, st => st
  | fuel + 1, module, st =>
    walk_module_deps reg fuel ((reg_find reg module).getD [])
      { st with seen := insert module st.seen }
termination_by fuel module st => (fuel, 0)

/-- The for-loop over module.deps inside _get_transitive_module_deps:
unknown names are collected into unknown_deps, already-seen dependencies are
skipped (the guard whose comment defers cycle detection to
ndk.deps.DependencyManager), and any other dependency is added to deps and
recursed into. -/
def walk_module_deps (reg : List (String × List String)) :
    Nat → List String → DepsState → DepsState
  | _, [], st => st
  | fuel, name :: rest, st =>
    match reg_find reg name with
    | none => walk_module_deps reg fuel rest
        { st with unknown_deps := insert name st.unknown_deps }
    | some _ =>
      if name ∈ st.seen then walk_module_deps reg fuel rest st
      else walk_module_deps reg fuel rest
        (get_transitive_module_deps_rec reg fuel name
          { st with deps := insert name st.deps })
termination_by fuel l st => (fuel, l.length + 1)

end

/-- Embeds get_transitive_module_deps from ndk/checkbuild.py: fresh empty
seen, deps and unknown_deps sets, then the traversal; returns the (deps,
unknown_deps) pair.  The fuel (one more than the registry size) is shown
sufficient by the transitive_deps theorems. -/
def get_transitive_module_deps (reg : List (String × List String))
    (module : String) : Finset String × Finset String :=
  let st := get_transitive_module_deps_rec reg (reg.length + 1) module ⟨∅, ∅, ∅⟩
  (st.deps, st.unknown_deps)

/-- Dependency edge of the registry: module m declares dependency d. -/
abbrev dep_edge (reg : List (String × List String)) (m d : String) : Prop :=
  d ∈ (reg_find reg m).getD []

/-- A dependency cycle of the registry: a nonempty module list in which each
module depends on the next and the last depends on the first. -/
abbrev IsDepCycle (reg : List (String × List String)) (l : List String) : Prop :=
  match l with
  | [] => False
  | m :: rest => List.Chain (dep_edge reg) m (rest ++ [m])

/-- One peeling step for cycle detection: keep exactly the modules that
still have a dependency inside the remaining set. -/
def peel_step (reg : List (String × List String)) (s : Finset String) :
    Finset String :=
  s.filter (fun m => ∃ d ∈ (reg_find reg m).getD [], d ∈ s)

/-- Modelled from the spec: the cycle detection of ndk.deps.DependencyManager
(ndk/deps.py is not under src/).  The spec makes that manager the authority:
"cycles are a fatal configuration error, detected, not silently broken", and
the traversal in ndk/checkbuild.py defers to it ("Cycle detection is already
handled by ndk.deps.DependencyManager").  Kahn-style peeling over the chosen
module set: repeatedly discard modules with no dependency left in the set; a
nonempty residue after enough steps is reported as a dependency cycle. -/
def dependency_manager_reports_cycle (reg : List (String × List String))
    (mods : Finset String) : Bool :=
  decide (((peel_step reg)^[mods.card] mods) ≠ ∅)

/-- Python errors surfaced by get_modules_to_build: an uncaught KeyError
raised by indexing NAMES_TO_MODULES with an unknown name, or the clean
sys.exit (non-zero process exit) carrying the combined message. -/
inductive BuildExit where
  | keyError (name : String)
  | sysExit (message : String)
  deriving DecidableEq, Repr

/-- Accumulator of the get_modules_to_build loop: the unknown_modules,
modules and deps_only sets. -/
structure ModulesAcc where
  unknown_modules : Finset String
  modules : Finset String
  deps_only : Finset String
  deriving DecidableEq

/-- The for-loop of get_modules_to_build from ndk/checkbuild.py, exactly as
written: when a requested name is not in NAMES_TO_MODULES it is added to
unknown_modules, but the loop body has no continue, so the very next
statement module = NAMES_TO_MODULES[name] raises KeyError for that same name
(the state mutated so far is lost as the exception propagates).  A known
name contributes itself and its transitive deps to modules, the deps whose
names were not requested to deps_only, and the traversal's unknown
dependency names to unknown_modules. -/
def modules_loop (reg : List (String × List String)) (module_names : List String) :
    List String → ModulesAcc → Except BuildExit ModulesAcc
  | [], acc => .ok acc
  | name :: rest, acc =>
    match reg_find reg name with
    | none => .error (.keyError name)
    | some _ =>
      let du := get_transitive_module_deps reg name
      modules_loop reg module_names rest
        { unknown_modules := acc.unknown_modules ∪ du.2
          modules := (insert name acc.modules) ∪ du.1
          deps_only := acc.deps_only ∪ (du.1.filter (fun dep => dep ∉ module_names)) }

/-- Embeds get_modules_to_build from ndk/checkbuild.py: run the loop over the
requested names; if any unknown names were collected, sys.exit with the
single combined "Unknown modules:" message listing them sorted; otherwise
return the name-sorted module list and the dependency-only set. -/
def get_modules_to_build (reg : List (String × List String))
    (module_names : List String) :
    Except BuildExit (List String × Finset String) :=
  match modules_loop reg module_names module_names ⟨∅, ∅, ∅⟩ with
  | .error e => .error e
  | .ok acc =>
    if acc.unknown_modules ≠ ∅ then
      .error (.sysExit ("Unknown modules: "
        ++ String.intercalate ", " (acc.unknown_modules.sort (· ≤ ·))))
    else .ok (acc.modules.sort (· ≤ ·), acc.deps_only)

/-- Concrete registry with a dependency cycle, for witnesses. -/
def regCyc : List (String × List String) :=
  [("a", ["b"]), ("b", ["a"])]

/-- Concrete registry without unknown names, for witnesses and failing
inputs. -/
def regPlain : List (String × List String) :=
  [("a", []), ("b", ["a"])]

/-- Event of a build-orchestrator run: a module handed to the workqueue
(workqueue.add_task(launch_build, module, log_dir) in launch_buildable), a
module whose install() has finished inside its worker (do_install at the end
of launch_build; recorded at the latest point it can have happened, just
before its result is retrieved), or a module marked complete
(deps.complete(module)). -/
inductive OrchEvent where
  | dispatch (module : String)
  | install (module : String)
  | complete (module : String)
  deriving DecidableEq, Repr

/-- Modelled from the spec: the per-run state of ndk.deps.DependencyManager
(ndk/deps.py is not under src/), together with the event trace of the run.
Spec section 3: pending (not yet buildable), in-flight (dispatched, awaiting
completion), completed (done); complete(module) moves a module from
in-flight to completed.  The in-flight set doubles as the workqueue
contents: each dispatched module produces exactly one retrievable result, so
workqueue.finished() is the emptiness of in-flight. -/
structure OrchState where
  pending : Finset String
  inflight : Finset String
  completed : Finset String
  trace : List OrchEvent
  deriving DecidableEq

/-- Modelled from the spec: deps.get_buildable() / deps.buildable_modules:
"buildable() = pending modules whose entire dependency set is contained in
completed" (spec section 3).  G maps each module name to its dependency name
set. -/
def buildable (G : String → Finset String) (st : OrchState) : Finset String :=
  st.pending.filter (fun m => G m ⊆ st.completed)

/-- Frontier modules skipped under --skip-deps: they are in the skip set and
are completed immediately instead of being dispatched. -/
def skipped_of (G : String → Finset String) (skip_deps : Bool)
    (skip_modules : Finset String) (st : OrchState) : Finset String :=
  if skip_deps then buildable G st ∩ skip_modules else ∅

/-- Frontier modules handed to the workqueue. -/
def dispatched_of (G : String → Finset String) (skip_deps : Bool)
    (skip_modules : Finset String) (st : OrchState) : Finset String :=
  buildable G st \ skipped_of G skip_deps skip_modules st

/-- One pass of the launch_buildable body over the whole buildable frontier:
frontier modules skipped under --skip-deps are immediately marked complete
(deps.complete without dispatch), all others are handed to the workqueue and
become in-flight.  Iteration order over a Python set is unspecified; the
trace lists each frontier's dispatches (in sorted order) before its
skip-completions, which is the conservative order for dependency-order
claims because every frontier member's dependency set was completed before
the frontier was taken. -/
def frontier_step (G : String → Finset String) (skip_deps : Bool)
    (skip_modules : Finset String) (st : OrchState) : OrchState :=
  { pending := st.pending \ buildable G st
    inflight := st.inflight ∪ dispatched_of G skip_deps skip_modules st
    completed := st.completed ∪ skipped_of G skip_deps skip_modules st
    trace := st.trace
      ++ ((dispatched_of G skip_deps skip_modules st).sort (· ≤ ·)).map
          OrchEvent.dispatch
      ++ ((skipped_of G skip_deps skip_modules st).sort (· ≤ ·)).map
          OrchEvent.complete }

/-- Embeds launch_buildable from ndk/checkbuild.py over the modelled
DependencyManager: while buildable modules remain, process the buildable
frontier with frontier_step.  The outer while loop repeats because
completing skipped modules can unblock further modules (the comment in the
source). -/
def launch_buildable (G : String → Finset String) (skip_deps : Bool)
    (skip_modules : Finset String) (st : OrchState) : OrchState :=
  if hb : buildable G st = ∅ then st
  else launch_buildable G skip_deps skip_modules
    (frontier_step G skip_deps skip_modules st)
termination_by st.pending.card
decreasing_by
  simp_wf
  have hsub : buildable G st ⊆ st.pending := Finset.filter_subset _ _
  have hne : (buildable G st).Nonempty := Finset.nonempty_iff_ne_empty.mpr hb
  exact Finset.card_lt_card (Finset.sdiff_ssubset hsub hne)

/-- Record of the failure path of wait_for_build: the printed
"Build failed:" line naming the module, the module whose captured log
log_build_failure prints and appends to the cumulative error log, and the
sys.exit code. -/
structure FailureReport where
  printed : String
  log_of : String
  exit_code : Nat
  deriving DecidableEq, Repr

/-- Outcome of wait_for_build: normal completion (workqueue finished), the
fail-fast sys.exit, or starvation (the schedule ran out while tasks were in
flight; unreachable in a real run because every dispatched task eventually
yields a result). -/
inductive WaitResult where
  | finished (st : OrchState)
  | starved (st : OrchState)
  | failed (report : FailureReport) (st : OrchState)
  deriving DecidableEq

/-- Final orchestrator state carried by a wait_for_build outcome. -/
def WaitResult.state : WaitResult → OrchState
  | .finished st => st
  | .starved st => st
  | .failed _ st => st

/-- Retrieval of a successful result in wait_for_build: the worker has
finished module.install() by this point (recorded just before the completion
event), and deps.complete(module) moves the module from in-flight to
completed. -/
def complete_step (module : String) (st : OrchState) : OrchState :=
  { pending := st.pending
    inflight := st.inflight.erase module
    completed := insert module st.completed
    trace := st.trace ++ [OrchEvent.install module, OrchEvent.complete module] }

/-- Embeds wait_for_build from ndk/checkbuild.py over the modelled
DependencyManager and workqueue (display-only console and ui calls omitted).
The schedule lists the (module, success) results in the order the workqueue
hands them back — retrieval order is completion order, so theorems quantify
over every schedule; an entry naming a module not in flight cannot be
produced by the workqueue and is skipped.  While the queue is not finished,
one result is retrieved: a false result prints "Build failed:" with the
module, surfaces its captured log via log_build_failure, and exits with code
1 at once — the module is not completed, nothing further is dispatched, and
no further result is awaited; a true result means the worker finished
module.install() (recorded just before the completion event), the module is
marked complete, and launch_buildable dispatches whatever that completion
unblocked. -/
def wait_for_build (G : String → Finset String) (skip_deps : Bool)
    (skip_modules : Finset String) :
    List (String × Bool) → OrchState → WaitResult
  | [], st => if st.inflight = ∅ then .finished st else .starved st
  | (module, ok) :: rest, st =>
    if st.inflight = ∅ then .finished st
    else if module ∈ st.inflight then
      if ok then
        wait_for_build G skip_deps skip_modules rest
          (launch_buildable G skip_deps skip_modules (complete_step module st))
      else .failed ⟨"Build failed: " ++ module, module, 1⟩ st
    else wait_for_build G skip_deps skip_modules rest st

/-- Embeds the orchestration in build_ndk from ndk/checkbuild.py: a fresh
DependencyManager over the chosen modules (everything pending, nothing in
flight or completed, empty trace), one launch_buildable pass, then
wait_for_build draining the queue against a schedule. -/
def build_ndk_run (G : String → Finset String) (skip_deps : Bool)
    (skip_modules : Finset String) (modules : Finset String)
    (sched : List (String × Bool)) : WaitResult :=
  wait_for_build G skip_deps skip_modules sched
    (launch_buildable G skip_deps skip_modules ⟨modules, ∅, ∅, []⟩)

/-- Orchestrator invariant tying the modelled DependencyManager state to the
event trace of the run, for the dependency graph G. -/
structure OrchInv (G : String → Finset String) (st : OrchState) : Prop where
  disj_pi : Disjoint st.pending st.inflight
  disj_pc : Disjoint st.pending st.completed
  disj_ic : Disjoint st.inflight st.completed
  completed_logged : ∀ d ∈ st.completed,
    ∃ j, st.trace.get? j = some (OrchEvent.complete d)
  inflight_dispatched : ∀ m ∈ st.inflight,
    ∃ j, st.trace.get? j = some (OrchEvent.dispatch m)
  dispatch_deps_completed : ∀ i m,
    st.trace.get? i = some (OrchEvent.dispatch m) → G m ⊆ st.completed
  dispatch_after_deps : ∀ i m, st.trace.get? i = some (OrchEvent.dispatch m) →
    ∀ d ∈ G m, ∃ j < i, st.trace.get? j = some (OrchEvent.complete d)
  install_completed : ∀ i m, st.trace.get? i = some (OrchEvent.install m) →
    m ∈ st.completed
  install_after_dispatch : ∀ i m, st.trace.get? i = some (OrchEvent.install m) →
    ∃ j < i, st.trace.get? j = some (OrchEvent.dispatch m)
  install_before_dependent_dispatch : ∀ i j m d, d ∈ G m →
    st.trace.get? i = some (OrchEvent.dispatch m) →
    st.trace.get? j = some (OrchEvent.install d) → j < i

/-- Concrete two-module dependency graph for witnesses: b depends on a. -/
def Gdemo : String → Finset String := fun m => if m = "b" then {"a"} else ∅

/-- Concrete result schedule for witnesses: a completes first, then b. -/
def schedDemo : List (String × Bool) := [("a", true), ("b", true)]

/- ===================== Theorems ===================== -/

/-- C3: _fixup_negative_test maps a Failure to Success for the same test and a
Success to Failure with message "negative test case succeeded"; in _run_test
this inversion is applied exactly when is_negative_test() holds (the result
of a normal run is the inverted result put through the broken fixup when the
test is negative, and the uninverted result put through the broken fixup
otherwise); consequently a negative, not-broken test whose build action
returns a Failure yields Success and one whose build action returns a
Success yields that Failure. -/
theorem negative_test_inversion :
    (∀ t m, fixup_negative_test (.Failure t m) = TestResult.Success t)
    ∧ (∀ t, fixup_negative_test (.Success t)
        = TestResult.Failure t "negative test case succeeded")
    ∧ (∀ suite test r extra, test.check_unsupported = none →
        test.run = .ok (r, extra) →
        (run_test suite test).2.1 =
          (match test.check_broken with
            | some (config, bug) =>
              fixup_expected_failure
                (if test.is_negative_test then fixup_negative_test r else r) config bug
            | none => if test.is_negative_test then fixup_negative_test r else r))
    ∧ (∀ suite test t m extra, test.check_unsupported = none →
        test.is_negative_test = true → test.check_broken = none →
        test.run = .ok (.Failure t m, extra) →
        (run_test suite test).2.1 = TestResult.Success t)
    ∧ (∀ suite test t extra, test.check_unsupported = none →
        test.is_negative_test = true → test.check_broken = none →
        test.run = .ok (.Success t, extra) →
        (run_test suite test).2.1
          = TestResult.Failure t "negative test case succeeded") := by
  refine ⟨fun t m => rfl, fun t => rfl, ?_, ?_, ?_⟩
  · intro suite test r extra hu hr
    simp [run_test, hu, hr]
  · intro suite test t m extra hu hneg hbr hr
    simp [run_test, hu, hr, hneg, hbr, fixup_negative_test]
  · intro suite test t extra hu hneg hbr hr
    simp [run_test, hu, hr, hneg, hbr, fixup_negative_test]

/-- Witness for C3 at concrete inputs: the negative test with a failing build
action yields Success, and the one with a succeeding build action yields the
Failure with the fixed message. -/
theorem negative_test_inversion_witness :
    (run_test "build" negFailTest).2.1 = TestResult.Success "neg_fail"
    ∧ (run_test "build" negPassTest).2.1
      = TestResult.Failure "neg_pass" "negative test case succeeded" :=
  ⟨negative_test_inversion.2.2.2.1 "build" negFailTest "neg_fail" "compiler error" []
      rfl rfl rfl rfl,
   negative_test_inversion.2.2.2.2 "build" negPassTest "neg_pass" [] rfl rfl rfl rfl⟩

/-- C4: when check_broken() returns a configuration, _fixup_expected_failure
maps Failure to ExpectedFailure and Success to UnexpectedSuccess, each tagged
with the configuration and bug, and leaves Skipped, ExpectedFailure and
UnexpectedSuccess unchanged; when check_broken() returns None the result of
_run_test passes through without the broken fixup; and in _run_test the
broken fixup is applied to the result of the negative-test inversion, that
is, after it. -/
theorem broken_config_reclassification :
    (∀ t m c b, fixup_expected_failure (.Failure t m) c b
      = TestResult.ExpectedFailure t m c b)
    ∧ (∀ t c b, fixup_expected_failure (.Success t) c b
      = TestResult.UnexpectedSuccess t c b)
    ∧ (∀ t m c b, fixup_expected_failure (.Skipped t m) c b = TestResult.Skipped t m)
    ∧ (∀ t m c0 b0 c b, fixup_expected_failure (.ExpectedFailure t m c0 b0) c b
      = TestResult.ExpectedFailure t m c0 b0)
    ∧ (∀ t c0 b0 c b, fixup_expected_failure (.UnexpectedSuccess t c0 b0) c b
      = TestResult.UnexpectedSuccess t c0 b0)
    ∧ (∀ suite test r extra, test.check_unsupported = none →
        test.run = .ok (r, extra) →
        (run_test suite test).2.1 =
          (match test.check_broken with
            | some (config, bug) =>
              fixup_expected_failure
                (if test.is_negative_test then fixup_negative_test r else r) config bug
            | none => if test.is_negative_test then fixup_negative_test r else r)) := by
  refine ⟨fun t m c b => rfl, fun t c b => rfl, fun t m c b => rfl,
    fun t m c0 b0 c b => rfl, fun t c0 b0 c b => rfl, ?_⟩
  intro suite test r extra hu hr
  simp [run_test, hu, hr]

/-- Witness for C4 at a concrete input: a broken (not negative) test whose
build action fails is reclassified to ExpectedFailure tagged with its
configuration and bug. -/
theorem broken_config_reclassification_witness :
    (run_test "build" brokenFailTest).2.1
      = TestResult.ExpectedFailure "broken" "boom" "x86" "http://b/123" := by
  have h := broken_config_reclassification.2.2.2.2.2 "build" brokenFailTest
    (.Failure "broken" "boom") [] rfl rfl
  simpa [brokenFailTest, TestCase.check_broken, TestCase.is_negative_test,
    fixup_expected_failure] using h

/-- C5: for every test whose check_unsupported() returns a configuration C,
_run_test returns a Skipped result with message "test unsupported for C" and
an empty additional-tests list; and the build action is never invoked: the
output of _run_test is unchanged under any replacement of the run action. -/
theorem unsupported_short_circuit :
    ∀ suite test config, test.check_unsupported = some config →
      run_test suite test
        = (suite, TestResult.Skipped test.name ("test unsupported for " ++ config), [])
      ∧ ∀ r2, run_test suite (test.with_run r2) = run_test suite test := by
  intro suite test config hu
  constructor
  · simp [run_test, hu]
  · intro r2
    obtain ⟨n, u, neg, br, r⟩ := test
    simp [TestCase.check_unsupported] at hu
    simp [run_test, TestCase.with_run, TestCase.check_unsupported, TestCase.name, hu]

/-- Witness for C5 at a concrete input. -/
theorem unsupported_short_circuit_witness :
    run_test "build" unsupportedTest
      = ("build",
         TestResult.Skipped "unsup" "test unsupported for armeabi-v7a-21-legacy", [])
    ∧ run_test "build" (unsupportedTest.with_run (.error "never used"))
      = run_test "build" unsupportedTest := by
  have h := unsupported_short_circuit "build" unsupportedTest "armeabi-v7a-21-legacy" rfl
  exact ⟨h.1, h.2 (.error "never used")⟩

/-- C7: an exception raised while running the test's build action inside
_run_test is caught and converted into a (suite, Failure with the traceback
text, empty additional-tests) return value.  That run_test is a total Lean
function into the plain triple type embeds the guarantee that the exception
is never propagated out of _run_test to the scheduler. -/
theorem test_exception_captured :
    ∀ suite test exc, test.check_unsupported = none → test.run = .error exc →
      run_test suite test = (suite, TestResult.Failure test.name exc, []) := by
  intro suite test exc hu hr
  simp [run_test, hu, hr]

/-- Witness for C7 at a concrete input. -/
theorem test_exception_captured_witness :
    run_test "build" raisingTest
      = ("build", TestResult.Failure "raiser" "Traceback: ValueError", []) :=
  test_exception_captured "build" raisingTest "Traceback: ValueError" rfl rfl

/-- A pair whose key is in the key list of an association list with distinct
keys looks up to its value. -/
theorem dict_get_of_mem :
    ∀ {devices : List (Int × List String)}, (devices.map Prod.fst).Nodup →
      ∀ {a : Int} {l : List String}, (a, l) ∈ devices → dict_get devices a = l := by
  intro devices
  induction devices with
  | nil => intro _ a l h; cases h
  | cons kv rest ih =>
    intro hnd a l h
    obtain ⟨k, v⟩ := kv
    rw [List.map_cons, List.nodup_cons] at hnd
    rcases List.mem_cons.mp h with heq | hmem
    · cases heq
      simp [dict_get]
    · have hka : k ≠ a := by
        intro hk
        subst hk
        exact hnd.1 (List.mem_map.mpr ⟨(k, l), hmem, rfl⟩)
      simp only [dict_get, if_neg hka]
      exact ih hnd.2 hmem

/-- Every key of an association list looks up to a value paired with it. -/
theorem mem_of_dict_get :
    ∀ {devices : List (Int × List String)} {a : Int},
      a ∈ devices.map Prod.fst → (a, dict_get devices a) ∈ devices := by
  intro devices
  induction devices with
  | nil => intro a h; cases h
  | cons kv rest ih =>
    intro a h
    obtain ⟨k, v⟩ := kv
    rw [List.map_cons, List.mem_cons] at h
    by_cases hk : k = a
    · subst hk
      simp [dict_get]
    · rcases h with h | h
      · exact absurd h.symm hk
      · simp only [dict_get, if_neg hk]
        exact List.mem_cons_of_mem _ (ih h)

/-- The scan of _desired_api_level returns none exactly when no scanned key
at or above min_api has abi in its ABI list. -/
theorem desired_api_scan_eq_none (min_api : Int) (abi : String)
    (devices : List (Int × List String)) :
    ∀ (s : List Int), desired_api_scan min_api abi devices s = none ↔
      ∀ b ∈ s, min_api ≤ b → abi ∉ dict_get devices b := by
  intro s
  induction s with
  | nil => simp [desired_api_scan]
  | cons x rest ih =>
    by_cases hx1 : x < min_api
    · simp only [desired_api_scan, if_pos hx1, ih]
      constructor
      · intro h b hb hle hmem
        rcases List.mem_cons.mp hb with rfl | hb
        · omega
        · exact h b hb hle hmem
      · intro h b hb hle hmem
        exact h b (List.mem_cons_of_mem _ hb) hle hmem
    · by_cases hx2 : abi ∈ dict_get devices x
      · simp only [desired_api_scan, if_neg hx1, if_pos hx2]
        constructor
        · intro h; cases h
        · intro h
          exact absurd hx2 (h x (List.mem_cons_self _ _) (by omega))
      · simp only [desired_api_scan, if_neg hx1, if_neg hx2, ih]
        constructor
        · intro h b hb hle hmem
          rcases List.mem_cons.mp hb with rfl | hb
          · exact hx2 hmem
          · exact h b hb hle hmem
        · intro h b hb hle hmem
          exact h b (List.mem_cons_of_mem _ hb) hle hmem

/-- Over a key list sorted in nondecreasing order, the scan of
_desired_api_level returns a key exactly when it is the least scanned key at
or above min_api whose ABI list contains abi. -/
theorem desired_api_scan_eq_some (min_api : Int) (abi : String)
    (devices : List (Int × List String)) :
    ∀ (s : List Int), s.Sorted (· ≤ ·) → ∀ (a : Int),
      (desired_api_scan min_api abi devices s = some a ↔
        a ∈ s ∧ min_api ≤ a ∧ abi ∈ dict_get devices a
          ∧ ∀ b ∈ s, min_api ≤ b → abi ∈ dict_get devices b → a ≤ b) := by
  intro s
  induction s with
  | nil =>
    intro _ a
    simp [desired_api_scan]
  | cons x rest ih =>
    intro hs a
    rw [List.sorted_cons] at hs
    by_cases hx1 : x < min_api
    · simp only [desired_api_scan, if_pos hx1, ih hs.2]
      constructor
      · rintro ⟨hmem, hle, habi, hmin⟩
        refine ⟨List.mem_cons_of_mem _ hmem, hle, habi, ?_⟩
        intro b hb hbl hbm
        rcases List.mem_cons.mp hb with rfl | hb
        · omega
        · exact hmin b hb hbl hbm
      · rintro ⟨hmem, hle, habi, hmin⟩
        rcases List.mem_cons.mp hmem with rfl | hmem
        · omega
        · exact ⟨hmem, hle, habi, fun b hb hbl hbm =>
            hmin b (List.mem_cons_of_mem _ hb) hbl hbm⟩
    · by_cases hx2 : abi ∈ dict_get devices x
      · simp only [desired_api_scan, if_neg hx1, if_pos hx2]
        constructor
        · intro h
          cases h
          refine ⟨List.mem_cons_self _ _, by omega, hx2, ?_⟩
          intro b hb _ _
          rcases List.mem_cons.mp hb with rfl | hb
          · exact le_refl _
          · exact hs.1 b hb
        · rintro ⟨hmem, hle, habi, hmin⟩
          have hax : a ≤ x := hmin x (List.mem_cons_self _ _) (by omega) hx2
          rcases List.mem_cons.mp hmem with rfl | hmem
          · rfl
          · have : x ≤ a := hs.1 a hmem
            have : a = x := le_antisymm hax this
            exact congrArg some this.symm
      · simp only [desired_api_scan, if_neg hx1, if_neg hx2, ih hs.2]
        constructor
        · rintro ⟨hmem, hle, habi, hmin⟩
          refine ⟨List.mem_cons_of_mem _ hmem, hle, habi, ?_⟩
          intro b hb hbl hbm
          rcases List.mem_cons.mp hb with rfl | hb
          · exact absurd hbm hx2
          · exact hmin b hb hbl hbm
        · rintro ⟨hmem, hle, habi, hmin⟩
          rcases List.mem_cons.mp hmem with rfl | hmem
          · exact absurd habi hx2
          · exact ⟨hmem, hle, habi, fun b hb hbl hbm =>
              hmin b (List.mem_cons_of_mem _ hb) hbl hbm⟩

/-- C9: for a device table with distinct API-level keys,
_desired_api_level(min_api, abi, devices) returns api exactly when api is the
smallest key of devices that is at least min_api and whose ABI list contains
abi, and raises a RuntimeError (the none value) exactly when no such key
exists. -/
theorem desired_api_level_spec :
    ∀ (min_api : Int) (abi : String) (devices : List (Int × List String)),
      (devices.map Prod.fst).Nodup →
      (∀ a : Int, desired_api_level min_api abi devices = some a ↔
        ∃ l, (a, l) ∈ devices ∧ min_api ≤ a ∧ abi ∈ l
          ∧ ∀ a' l', (a', l') ∈ devices → min_api ≤ a' → abi ∈ l' → a ≤ a')
      ∧ (desired_api_level min_api abi devices = none ↔
        ∀ a l, (a, l) ∈ devices → min_api ≤ a → abi ∉ l) := by
  intro min_api abi devices hnd
  have hsort : (List.insertionSort (· ≤ ·) (devices.map Prod.fst)).Sorted (· ≤ ·) :=
    List.sorted_insertionSort _ _
  have hmem : ∀ b : Int,
      b ∈ List.insertionSort (· ≤ ·) (devices.map Prod.fst) ↔
        b ∈ devices.map Prod.fst := fun b =>
    (List.perm_insertionSort _ _).mem_iff
  constructor
  · intro a
    rw [desired_api_level, desired_api_scan_eq_some min_api abi devices _ hsort]
    constructor
    · rintro ⟨hmema, hle, habi, hmin⟩
      refine ⟨dict_get devices a, mem_of_dict_get ((hmem a).mp hmema), hle, habi, ?_⟩
      intro a' l' hmem' hle' habi'
      have hget' : dict_get devices a' = l' := dict_get_of_mem hnd hmem'
      exact hmin a' ((hmem a').mpr (List.mem_map.mpr ⟨(a', l'), hmem', rfl⟩)) hle'
        (hget' ▸ habi')
    · rintro ⟨l, hmeml, hle, habi, hmin⟩
      have hget : dict_get devices a = l := dict_get_of_mem hnd hmeml
      refine ⟨(hmem a).mpr (List.mem_map.mpr ⟨(a, l), hmeml, rfl⟩), hle, hget ▸ habi, ?_⟩
      intro b hb hble hbabi
      have hbmem : b ∈ devices.map Prod.fst := (hmem b).mp hb
      exact hmin b (dict_get devices b) (mem_of_dict_get hbmem) hble hbabi
  · rw [desired_api_level, desired_api_scan_eq_none]
    constructor
    · intro h a l hal hle habi
      have hget : dict_get devices a = l := dict_get_of_mem hnd hal
      exact h a ((hmem a).mpr (List.mem_map.mpr ⟨(a, l), hal, rfl⟩)) hle (hget ▸ habi)
    · intro h b hb hle habi
      exact h b (dict_get devices b) (mem_of_dict_get ((hmem b).mp hb)) hle habi

/-- Witness for C9 at a concrete input: with devices 30 (arm64-v8a, x86_64)
and 21 (armeabi-v7a), the desired API level for min_api 21 and abi x86_64 is
30, and it is the least qualifying key. -/
theorem desired_api_level_spec_witness :
    ∃ l, (30, l) ∈ devicesExample ∧ (21 : Int) ≤ 30 ∧ "x86_64" ∈ l
      ∧ ∀ a' l', (a', l') ∈ devicesExample → 21 ≤ a' → "x86_64" ∈ l' → 30 ≤ a' :=
  ((desired_api_level_spec 21 "x86_64" devicesExample (by decide)).1 30).mp (by decide)

/-- Digit characters parse back to their value. -/
theorem charDigit_digitChar : ∀ n, n < 10 → charDigit (Nat.digitChar n) = some n := by
  decide

/-- Digit characters are not the dash. -/
theorem digitChar_ne_dash : ∀ n, n < 10 → Nat.digitChar n ≠ '-' := by
  decide

/-- Decimal renderings contain no dash. -/
theorem dash_not_mem_natCharsFuel :
    ∀ fuel n, '-' ∉ natCharsFuel fuel n := by
  intro fuel
  induction fuel with
  | zero => intro n h; cases h
  | succ fuel ih =>
    intro n h
    by_cases h10 : n < 10
    · rw [natCharsFuel, if_pos h10] at h
      rcases List.mem_singleton.mp h with h
      exact digitChar_ne_dash n h10 h.symm
    · rw [natCharsFuel, if_neg h10] at h
      rcases List.mem_append.mp h with h | h
      · exact ih (n / 10) h
      · rcases List.mem_singleton.mp h with h
        exact digitChar_ne_dash (n % 10) (Nat.mod_lt n (by omega)) h.symm

/-- Decimal renderings with positive fuel are nonempty. -/
theorem natCharsFuel_ne_nil :
    ∀ fuel n, 0 < fuel → natCharsFuel fuel n ≠ [] := by
  intro fuel n hf
  match fuel, hf with
  | fuel + 1, _ =>
    by_cases h10 : n < 10
    · rw [natCharsFuel, if_pos h10]
      simp
    · rw [natCharsFuel, if_neg h10]
      simp

/-- The decimal accumulator distributes over list append. -/
theorem parseNatAux_append :
    ∀ (xs ys : List Char) (acc : Nat),
      parseNatAux acc (xs ++ ys)
        = (parseNatAux acc xs).bind (fun v => parseNatAux v ys) := by
  intro xs
  induction xs with
  | nil => intro ys acc; simp [parseNatAux]
  | cons c cs ih =>
    intro ys acc
    cases hc : charDigit c with
    | none => simp [parseNatAux, hc]
    | some d => simp [parseNatAux, hc, ih]

/-- Parsing a fuelled decimal rendering of n appends the digits of n to the
accumulated value. -/
theorem parseNatAux_natCharsFuel :
    ∀ fuel n, n < fuel → ∀ acc,
      parseNatAux acc (natCharsFuel fuel n)
        = some (acc * 10 ^ (natCharsFuel fuel n).length + n) := by
  intro fuel
  induction fuel with
  | zero => intro n hn; omega
  | succ fuel ih =>
    intro n hn acc
    by_cases h10 : n < 10
    · rw [natCharsFuel, if_pos h10]
      have hc := charDigit_digitChar n h10
      simp [parseNatAux, hc]
      omega
    · rw [natCharsFuel, if_neg h10]
      have hdiv : n / 10 < fuel := by
        have h1 : n / 10 < n := Nat.div_lt_self (by omega) (by omega)
        omega
      rw [parseNatAux_append, ih (n / 10) hdiv acc]
      have hc := charDigit_digitChar (n % 10) (Nat.mod_lt n (by omega))
      simp only [Option.some_bind, parseNatAux, hc, List.length_append,
        List.length_singleton]
      have hdm := Nat.div_add_mod n 10
      rw [pow_succ]
      congr 1
      calc 10 * (acc * 10 ^ (natCharsFuel fuel (n / 10)).length + n / 10) + n % 10
          = acc * (10 ^ (natCharsFuel fuel (n / 10)).length * 10)
              + (10 * (n / 10) + n % 10) := by ring
        _ = acc * (10 ^ (natCharsFuel fuel (n / 10)).length * 10) + n := by rw [hdm]

/-- Python int() parses back Python str of a non-negative int. -/
theorem parseInt_natChars : ∀ n : Nat, parseInt (natChars n) = some (n : Int) := by
  intro n
  cases hl : natChars n with
  | nil => exact absurd hl (natCharsFuel_ne_nil (n + 1) n (Nat.succ_pos n))
  | cons c cs =>
    have hcd : c ≠ '-' := by
      intro h
      subst h
      have hm : '-' ∈ natChars n := by rw [hl]; exact List.mem_cons_self _ _
      exact dash_not_mem_natCharsFuel (n + 1) n hm
    have hparse : parseNatAux 0 (natChars n)
        = some (0 * 10 ^ (natChars n).length + n) :=
      parseNatAux_natCharsFuel (n + 1) n (Nat.lt_succ_self n) 0
    rw [hl] at hparse
    simp only [parseInt, hl, List.head?_cons, List.tail_cons]
    rw [if_neg (by simp [hcd]), if_neg (by simp)]
    rw [hparse]
    simp

/-- Python str.partition("-") splits an appended dash off a dash-free head. -/
theorem partitionDash_append :
    ∀ (xs ys : List Char), '-' ∉ xs → partitionDash (xs ++ '-' :: ys) = (xs, ys) := by
  intro xs
  induction xs with
  | nil => intro ys _; simp [partitionDash]
  | cons x xs' ih =>
    intro ys h
    have hx : x ≠ '-' := fun hh => h (hh ▸ List.mem_cons_self _ _)
    have h' : '-' ∉ xs' := fun hh => h (List.mem_cons_of_mem _ hh)
    simp [partitionDash, if_neg hx, ih ys h']

/-- Python str.split("-") always yields at least one field. -/
theorem splitDash_ne_nil : ∀ l : List Char, splitDash l ≠ [] := by
  intro l
  induction l with
  | nil => simp [splitDash]
  | cons c cs ih =>
    cases hcs : splitDash cs with
    | nil => exact absurd hcs ih
    | cons h t =>
      simp only [splitDash, hcs]
      split <;> simp

/-- Python str.split("-") on a dash-free string is that single field. -/
theorem splitDash_no_dash : ∀ l : List Char, '-' ∉ l → splitDash l = [l] := by
  intro l
  induction l with
  | nil => intro _; rfl
  | cons c cs ih =>
    intro h
    have hc : c ≠ '-' := fun hh => h (hh ▸ List.mem_cons_self _ _)
    have h' : '-' ∉ cs := fun hh => h (List.mem_cons_of_mem _ hh)
    simp [splitDash, ih h', if_neg hc]

/-- Python str.split("-") peels a dash-free head field at an appended dash. -/
theorem splitDash_append :
    ∀ (xs ys : List Char), '-' ∉ xs →
      splitDash (xs ++ '-' :: ys) = xs :: splitDash ys := by
  intro xs
  induction xs with
  | nil =>
    intro ys _
    cases hys : splitDash ys with
    | nil => exact absurd hys (splitDash_ne_nil ys)
    | cons h t => simp [splitDash, hys]
  | cons x xs' ih =>
    intro ys h
    have hx : x ≠ '-' := fun hh => h (hh ▸ List.mem_cons_self _ _)
    have h' : '-' ∉ xs' := fun hh => h (List.mem_cons_of_mem _ hh)
    simp [splitDash, ih ys h', if_neg hx]

/-- Enum values look their member back up. -/
theorem cmake_value_lookup :
    ∀ tc : CMakeToolchainFile, cmakeToolchainFileOfValue tc.value = some tc := by
  intro tc
  cases tc <;> rfl

/-- Enum values contain no dash. -/
theorem dash_not_mem_cmake_value :
    ∀ tc : CMakeToolchainFile, '-' ∉ tc.value := by
  intro tc
  cases tc <;> decide

/-- Behaviour of from_string on a one-dash-free ABI followed by an API field
and a toolchain-file field. -/
theorem from_string_plain (abi ds tcl : List Char)
    (habi1 : abi ≠ ['a', 'r', 'm', 'e', 'a', 'b', 'i'])
    (habi2 : abi ≠ ['a', 'r', 'm', '6', '4'])
    (hda : '-' ∉ abi) (hdd : '-' ∉ ds) (hdt : '-' ∉ tcl) :
    BuildConfiguration.from_string (abi ++ '-' :: (ds ++ '-' :: tcl)) =
      match parseInt ds, cmakeToolchainFileOfValue tcl with
      | some api, some tc => some ⟨abi, some api, tc⟩
      | some _, none => none
      | none, _ => none := by
  have hp := partitionDash_append abi (ds ++ '-' :: tcl) hda
  have hsplit : splitDash (ds ++ '-' :: tcl) = [ds, tcl] := by
    rw [splitDash_append ds tcl hdd, splitDash_no_dash tcl hdt]
  simp only [BuildConfiguration.from_string, hp]
  rw [if_neg, if_neg]
  · simp only [hsplit]
  · exact fun h => habi2 h.1
  · exact fun h => habi1 h.1

/-- Behaviour of from_string on the two-dash ABI name armeabi-v7a followed by
an API field and a toolchain-file field. -/
theorem from_string_armeabi (ds tcl : List Char)
    (hdd : '-' ∉ ds) (hdt : '-' ∉ tcl) :
    BuildConfiguration.from_string
        (['a', 'r', 'm', 'e', 'a', 'b', 'i']
          ++ '-' :: (['v', '7', 'a'] ++ '-' :: (ds ++ '-' :: tcl))) =
      match parseInt ds, cmakeToolchainFileOfValue tcl with
      | some api, some tc =>
        some ⟨['a', 'r', 'm', 'e', 'a', 'b', 'i', '-', 'v', '7', 'a'], some api, tc⟩
      | some _, none => none
      | none, _ => none := by
  have hsplit : splitDash (ds ++ '-' :: tcl) = [ds, tcl] := by
    rw [splitDash_append ds tcl hdd, splitDash_no_dash tcl hdt]
  have hp : partitionDash
      ('a' :: 'r' :: 'm' :: 'e' :: 'a' :: 'b' :: 'i' :: '-' ::
        ('v' :: '7' :: 'a' :: '-' :: (ds ++ '-' :: tcl)))
      = (['a', 'r', 'm', 'e', 'a', 'b', 'i'],
         'v' :: '7' :: 'a' :: '-' :: (ds ++ '-' :: tcl)) :=
    partitionDash_append ['a', 'r', 'm', 'e', 'a', 'b', 'i']
      ('v' :: '7' :: 'a' :: '-' :: (ds ++ '-' :: tcl)) (by decide)
  have hp2 : partitionDash ('v' :: '7' :: 'a' :: '-' :: (ds ++ '-' :: tcl))
      = (['v', '7', 'a'], ds ++ '-' :: tcl) :=
    partitionDash_append ['v', '7', 'a'] (ds ++ '-' :: tcl) (by decide)
  have hpre : List.isPrefixOf ['v', '7', 'a', '-']
      ('v' :: '7' :: 'a' :: '-' :: (ds ++ '-' :: tcl)) = true := by
    simp [List.isPrefixOf]
  simp [BuildConfiguration.from_string, List.cons_append, List.nil_append,
    hp, hp2, hpre, hsplit]

/-- Behaviour of from_string on the two-dash ABI name arm64-v8a followed by
an API field and a toolchain-file field. -/
theorem from_string_arm64 (ds tcl : List Char)
    (hdd : '-' ∉ ds) (hdt : '-' ∉ tcl) :
    BuildConfiguration.from_string
        (['a', 'r', 'm', '6', '4']
          ++ '-' :: (['v', '8', 'a'] ++ '-' :: (ds ++ '-' :: tcl))) =
      match parseInt ds, cmakeToolchainFileOfValue tcl with
      | some api, some tc =>
        some ⟨['a', 'r', 'm', '6', '4', '-', 'v', '8', 'a'], some api, tc⟩
      | some _, none => none
      | none, _ => none := by
  have hsplit : splitDash (ds ++ '-' :: tcl) = [ds, tcl] := by
    rw [splitDash_append ds tcl hdd, splitDash_no_dash tcl hdt]
  have hp : partitionDash
      ('a' :: 'r' :: 'm' :: '6' :: '4' :: '-' ::
        ('v' :: '8' :: 'a' :: '-' :: (ds ++ '-' :: tcl)))
      = (['a', 'r', 'm', '6', '4'],
         'v' :: '8' :: 'a' :: '-' :: (ds ++ '-' :: tcl)) :=
    partitionDash_append ['a', 'r', 'm', '6', '4']
      ('v' :: '8' :: 'a' :: '-' :: (ds ++ '-' :: tcl)) (by decide)
  have hp2 : partitionDash ('v' :: '8' :: 'a' :: '-' :: (ds ++ '-' :: tcl))
      = (['v', '8', 'a'], ds ++ '-' :: tcl) :=
    partitionDash_append ['v', '8', 'a'] (ds ++ '-' :: tcl) (by decide)
  have hpre : List.isPrefixOf ['v', '8', 'a', '-']
      ('v' :: '8' :: 'a' :: '-' :: (ds ++ '-' :: tcl)) = true := by
    simp [List.isPrefixOf]
  simp [BuildConfiguration.from_string, List.cons_append, List.nil_append,
    hp, hp2, hpre, hsplit]

/-- C10 counterexample: the round trip fails for a BuildConfiguration whose
api field holds a negative int, although its api is not None and its abi is
an NDK ABI name.  str of abi x86, api -1, toolchain legacy is
"x86--1-legacy"; the remainder after the first dash splits into three fields,
so from_string raises ValueError (none) instead of returning the
configuration. -/
theorem build_config_roundtrip_counterexample :
    BuildConfiguration.from_string (BuildConfiguration.str
        ⟨['x', '8', '6'], some (-1), CMakeToolchainFile.Legacy⟩)
      ≠ some ⟨['x', '8', '6'], some (-1), CMakeToolchainFile.Legacy⟩ := by
  decide

/-- C10 as amended: for every BuildConfiguration whose api field is a
non-negative integer and whose abi is one of the NDK ABI names,
BuildConfiguration.from_string(str(c)) equals c, including the two-dash ABI
names armeabi-v7a and arm64-v8a. -/
theorem build_config_roundtrip :
    ∀ (c : BuildConfiguration) (a : Int), c.api = some a → 0 ≤ a →
      c.abi ∈ NDK_ABIS →
      BuildConfiguration.from_string (BuildConfiguration.str c) = some c := by
  intro c a hapi ha habi
  obtain ⟨abi, api, tc⟩ := c
  simp only at hapi
  subst hapi
  have hi : intChars a = natChars a.toNat := by
    rw [intChars, if_neg (not_lt.mpr ha)]
  have hdd : '-' ∉ natChars a.toNat := dash_not_mem_natCharsFuel _ _
  have hpi : parseInt (natChars a.toNat) = some a := by
    rw [parseInt_natChars, Int.toNat_of_nonneg ha]
  have hdt : '-' ∉ tc.value := dash_not_mem_cmake_value tc
  have hcv : cmakeToolchainFileOfValue tc.value = some tc := cmake_value_lookup tc
  simp only [NDK_ABIS, List.mem_cons, List.not_mem_nil, or_false] at habi
  rcases habi with h | h | h | h <;> subst h
  · have hstr : BuildConfiguration.str
        ⟨['a', 'r', 'm', 'e', 'a', 'b', 'i', '-', 'v', '7', 'a'], some a, tc⟩
        = ['a', 'r', 'm', 'e', 'a', 'b', 'i']
          ++ '-' :: (['v', '7', 'a'] ++ '-' :: (natChars a.toNat ++ '-' :: tc.value)) := by
      simp [BuildConfiguration.str, hi, List.cons_append, List.nil_append]
    rw [hstr, from_string_armeabi _ _ hdd hdt, hpi, hcv]
  · have hstr : BuildConfiguration.str
        ⟨['a', 'r', 'm', '6', '4', '-', 'v', '8', 'a'], some a, tc⟩
        = ['a', 'r', 'm', '6', '4']
          ++ '-' :: (['v', '8', 'a'] ++ '-' :: (natChars a.toNat ++ '-' :: tc.value)) := by
      simp [BuildConfiguration.str, hi, List.cons_append, List.nil_append]
    rw [hstr, from_string_arm64 _ _ hdd hdt, hpi, hcv]
  · have hstr : BuildConfiguration.str ⟨['x', '8', '6'], some a, tc⟩
        = ['x', '8', '6'] ++ '-' :: (natChars a.toNat ++ '-' :: tc.value) := by
      simp [BuildConfiguration.str, hi, List.cons_append, List.nil_append]
    rw [hstr, from_string_plain _ _ _ (by decide) (by decide) (by decide) hdd hdt,
      hpi, hcv]
  · have hstr : BuildConfiguration.str ⟨['x', '8', '6', '_', '6', '4'], some a, tc⟩
        = ['x', '8', '6', '_', '6', '4'] ++ '-' :: (natChars a.toNat ++ '-' :: tc.value) := by
      simp [BuildConfiguration.str, hi, List.cons_append, List.nil_append]
    rw [hstr, from_string_plain _ _ _ (by decide) (by decide) (by decide) hdd hdt,
      hpi, hcv]

/-- Witness for the amended C10 at a concrete input: the two-dash ABI
armeabi-v7a with API 21 and the legacy toolchain file round-trips. -/
theorem build_config_roundtrip_witness :
    BuildConfiguration.from_string (BuildConfiguration.str
        ⟨['a', 'r', 'm', 'e', 'a', 'b', 'i', '-', 'v', '7', 'a'], some 21,
          CMakeToolchainFile.Legacy⟩)
      = some ⟨['a', 'r', 'm', 'e', 'a', 'b', 'i', '-', 'v', '7', 'a'], some 21,
          CMakeToolchainFile.Legacy⟩ :=
  build_config_roundtrip _ 21 rfl (by decide) (by decide)

/-- Names that NAMES_TO_MODULES resolves are registered keys. -/
theorem reg_find_some_mem :
    ∀ (reg : List (String × List String)) (name : String) (v : List String),
      reg_find reg name = some v → name ∈ regKeys reg := by
  intro reg name v h
  induction reg with
  | nil => simp [reg_find] at h
  | cons kv rest ih =>
    obtain ⟨k, w⟩ := kv
    by_cases hk : k = name
    · subst hk
      simp [regKeys]
    · rw [reg_find, if_neg hk] at h
      have hr := ih h
      simp only [regKeys, List.map_cons, List.toFinset_cons, Finset.mem_insert]
      exact Or.inr (by simpa [regKeys] using hr)

/-- The dependency walk only grows the seen set, given that the recursive
entry only grows it at this fuel. -/
theorem walk_seen_mono_of_rec :
    ∀ (fuel : Nat) (reg : List (String × List String)),
      (∀ m st, st.seen ⊆ (get_transitive_module_deps_rec reg fuel m st).seen) →
      ∀ (l : List String) (st : DepsState),
        st.seen ⊆ (walk_module_deps reg fuel l st).seen := by
  intro fuel reg hrec l
  induction l with
  | nil => intro st; simp [walk_module_deps]
  | cons name rest ih =>
    intro st
    cases hf : reg_find reg name with
    | none =>
      simp only [walk_module_deps, hf]
      exact ih { st with unknown_deps := insert name st.unknown_deps }
    | some v =>
      simp only [walk_module_deps, hf]
      by_cases hs : name ∈ st.seen
      · rw [if_pos hs]
        exact ih st
      · rw [if_neg hs]
        exact subset_trans (hrec name { st with deps := insert name st.deps })
          (ih (get_transitive_module_deps_rec reg fuel name
            { st with deps := insert name st.deps }))

/-- The traversal and the walk only grow the seen set. -/
theorem rec_walk_seen_mono :
    ∀ (fuel : Nat) (reg : List (String × List String)),
      (∀ m st, st.seen ⊆ (get_transitive_module_deps_rec reg fuel m st).seen)
      ∧ (∀ l st, st.seen ⊆ (walk_module_deps reg fuel l st).seen) := by
  intro fuel
  induction fuel with
  | zero =>
    intro reg
    have hrec : ∀ m st,
        st.seen ⊆ (get_transitive_module_deps_rec reg 0 m st).seen := by
      intro m st
      simp [get_transitive_module_deps_rec]
    exact ⟨hrec, walk_seen_mono_of_rec 0 reg hrec⟩
  | succ k ih =>
    intro reg
    have hrec : ∀ m st,
        st.seen ⊆ (get_transitive_module_deps_rec reg (k + 1) m st).seen := by
      intro m st
      simp only [get_transitive_module_deps_rec]
      exact subset_trans (Finset.subset_insert m st.seen)
        ((ih reg).2 ((reg_find reg m).getD []) { st with seen := insert m st.seen })
    exact ⟨hrec, walk_seen_mono_of_rec (k + 1) reg hrec⟩

/-- With positive fuel, the module passed to the traversal ends up seen. -/
theorem rec_seen_mono_insert :
    ∀ (fuel : Nat) (reg : List (String × List String)) (m : String) (st : DepsState),
      insert m st.seen ⊆ (get_transitive_module_deps_rec reg (fuel + 1) m st).seen := by
  intro fuel reg m st
  simp only [get_transitive_module_deps_rec]
  exact (rec_walk_seen_mono fuel reg).2 ((reg_find reg m).getD [])
    { st with seen := insert m st.seen }

/-- Fuel irrelevance of the traversal: once the fuel exceeds the number of
registered-but-unseen modules, the result no longer depends on it.  This is
the termination argument of _get_transitive_module_deps made explicit: each
recursive descent permanently marks a fresh registry module as seen. -/
theorem rec_walk_fuel_stable :
    ∀ (fuel₁ : Nat),
      (∀ (fuel₂ : Nat) (reg : List (String × List String)) (m : String)
          (st : DepsState),
          (regKeys reg \ insert m st.seen).card < fuel₁ →
          (regKeys reg \ insert m st.seen).card < fuel₂ →
          get_transitive_module_deps_rec reg fuel₁ m st
            = get_transitive_module_deps_rec reg fuel₂ m st)
      ∧ (∀ (fuel₂ : Nat) (reg : List (String × List String)) (l : List String)
          (st : DepsState),
          (regKeys reg \ st.seen).card ≤ fuel₁ →
          (regKeys reg \ st.seen).card ≤ fuel₂ →
          walk_module_deps reg fuel₁ l st = walk_module_deps reg fuel₂ l st) := by
  intro fuel₁
  induction fuel₁ with
  | zero =>
    constructor
    · intro fuel₂ reg m st h1 h2
      omega
    · intro fuel₂ reg l
      induction l with
      | nil => intro st h1 h2; simp [walk_module_deps]
      | cons name rest ihl =>
        intro st h1 h2
        cases hf : reg_find reg name with
        | none =>
          simp only [walk_module_deps, hf]
          exact ihl _ h1 h2
        | some v =>
          have hmem := reg_find_some_mem reg name v hf
          by_cases hs : name ∈ st.seen
          · simp only [walk_module_deps, hf, if_pos hs]
            exact ihl st h1 h2
          · exfalso
            have hin : name ∈ regKeys reg \ st.seen :=
              Finset.mem_sdiff.mpr ⟨hmem, hs⟩
            have hpos := Finset.card_pos.mpr ⟨name, hin⟩
            omega
  | succ k ih =>
    have recPart : ∀ (fuel₂ : Nat) (reg : List (String × List String)) (m : String)
        (st : DepsState),
        (regKeys reg \ insert m st.seen).card < k + 1 →
        (regKeys reg \ insert m st.seen).card < fuel₂ →
        get_transitive_module_deps_rec reg (k + 1) m st
          = get_transitive_module_deps_rec reg fuel₂ m st := by
      intro fuel₂ reg m st h1 h2
      obtain ⟨j, rfl⟩ : ∃ j, fuel₂ = j + 1 := ⟨fuel₂ - 1, by omega⟩
      simp only [get_transitive_module_deps_rec]
      exact ih.2 j reg ((reg_find reg m).getD []) { st with seen := insert m st.seen }
        (show (regKeys reg \ insert m st.seen).card ≤ k by omega)
        (show (regKeys reg \ insert m st.seen).card ≤ j by omega)
    constructor
    · exact recPart
    · intro fuel₂ reg l
      induction l with
      | nil => intro st h1 h2; simp [walk_module_deps]
      | cons name rest ihl =>
        intro st h1 h2
        cases hf : reg_find reg name with
        | none =>
          simp only [walk_module_deps, hf]
          exact ihl _ h1 h2
        | some v =>
          have hmem := reg_find_some_mem reg name v hf
          by_cases hs : name ∈ st.seen
          · simp only [walk_module_deps, hf, if_pos hs]
            exact ihl st h1 h2
          · simp only [walk_module_deps, hf, if_neg hs]
            have hin : name ∈ regKeys reg \ st.seen :=
              Finset.mem_sdiff.mpr ⟨hmem, hs⟩
            have herase : regKeys reg
                \ insert name (DepsState.seen { st with deps := insert name st.deps })
                = (regKeys reg \ st.seen).erase name := by
              ext x
              simp only [Finset.mem_sdiff, Finset.mem_insert, Finset.mem_erase]
              tauto
            have hcard : (regKeys reg
                \ insert name (DepsState.seen { st with deps := insert name st.deps })).card
                < (regKeys reg \ st.seen).card := by
              rw [herase]
              exact Finset.card_erase_lt_of_mem hin
            have heq := recPart fuel₂ reg name { st with deps := insert name st.deps }
              (by omega) (by omega)
            rw [heq]
            obtain ⟨j, rfl⟩ : ∃ j, fuel₂ = j + 1 := ⟨fuel₂ - 1, by omega⟩
            have hseen : insert name st.seen
                ⊆ (get_transitive_module_deps_rec reg (j + 1) name
                    { st with deps := insert name st.deps }).seen :=
              rec_seen_mono_insert j reg name { st with deps := insert name st.deps }
            have hsub : regKeys reg
                \ (get_transitive_module_deps_rec reg (j + 1) name
                    { st with deps := insert name st.deps }).seen
                ⊆ regKeys reg \ insert name st.seen :=
              Finset.sdiff_subset_sdiff (le_refl _) hseen
            have hle := Finset.card_le_card hsub
            have hle2 : (regKeys reg \ insert name st.seen).card
                < (regKeys reg \ st.seen).card := by
              have : regKeys reg \ insert name st.seen
                  = (regKeys reg \ st.seen).erase name := by
                ext x
                simp only [Finset.mem_sdiff, Finset.mem_insert, Finset.mem_erase]
                tauto
              rw [this]
              exact Finset.card_erase_lt_of_mem hin
            exact ihl _ (by omega) (by omega)

/-- Along a dependency chain ending in c, every module of the chain except c
has a successor inside the chain tail. -/
theorem chain_mem_succ :
    ∀ (reg : List (String × List String)) (ys : List String) (b c : String),
      List.Chain (dep_edge reg) b (ys ++ [c]) →
      ∀ m ∈ b :: ys, ∃ d ∈ ys ++ [c], dep_edge reg m d := by
  intro reg ys
  induction ys with
  | nil =>
    intro b c hch m hm
    rcases List.chain_cons.mp hch with ⟨hbc, _⟩
    rcases List.mem_singleton.mp hm with rfl
    exact ⟨c, List.mem_singleton_self c, hbc⟩
  | cons y ys' ih =>
    intro b c hch m hm
    rcases List.chain_cons.mp hch with ⟨hby, hch'⟩
    rcases List.mem_cons.mp hm with rfl | hm'
    · exact ⟨y, List.mem_cons_self _ _, hby⟩
    · rcases ih y c hch' m hm' with ⟨d, hd, hmd⟩
      exact ⟨d, List.mem_cons_of_mem _ hd, hmd⟩

/-- Every module of a dependency cycle depends on another module of the
cycle. -/
theorem cycle_mem_succ :
    ∀ (reg : List (String × List String)) (l : List String),
      IsDepCycle reg l → ∀ m ∈ l, ∃ d ∈ l, dep_edge reg m d := by
  intro reg l hcyc m hm
  match l, hcyc, hm with
  | a :: xs, hcyc, hm =>
    rcases chain_mem_succ reg xs a a hcyc m hm with ⟨d, hd, hmd⟩
    rcases List.mem_append.mp hd with hd | hd
    · exact ⟨d, List.mem_cons_of_mem _ hd, hmd⟩
    · rcases List.mem_singleton.mp hd with rfl
      exact ⟨d, List.mem_cons_self _ _, hmd⟩

/-- Modules of a dependency cycle survive every peeling step. -/
theorem cycle_subset_peel_iterate :
    ∀ (reg : List (String × List String)) (mods : Finset String) (l : List String),
      IsDepCycle reg l → (∀ m ∈ l, m ∈ mods) →
      ∀ k : Nat, l.toFinset ⊆ (peel_step reg)^[k] mods := by
  intro reg mods l hcyc hmods k
  induction k with
  | zero =>
    intro m hm
    exact hmods m (List.mem_toFinset.mp hm)
  | succ k ih =>
    rw [Function.iterate_succ_apply']
    intro m hm
    have hml : m ∈ l := List.mem_toFinset.mp hm
    rcases cycle_mem_succ reg l hcyc m hml with ⟨d, hd, hmd⟩
    refine Finset.mem_filter.mpr ⟨ih hm, ?_⟩
    exact ⟨d, hmd, ih (List.mem_toFinset.mpr hd)⟩

/-- C8: the transitive dependency closure computation terminates on every
module graph, including graphs containing a dependency cycle: once the fuel
standing in for the recursion depth exceeds the registry size, the result no
longer depends on it, because the seen-set guard lets the traversal descend
only into registry modules not yet seen.  Computing the closure twice for the
same module yields the same (deps, unknown_deps) pair: the embedding is a
pure function, reflecting that the Python function mutates nothing beyond
the fresh sets it is handed.  The cycle itself is detected and reported by
the spec-modelled cycle detection of ndk.deps.DependencyManager (the
traversal's own comment defers to it): any module set containing a
dependency cycle is reported. -/
theorem transitive_deps_terminate :
    (∀ (reg : List (String × List String)) (module : String) (fuel : Nat),
        reg.length < fuel →
        get_transitive_module_deps_rec reg fuel module ⟨∅, ∅, ∅⟩
          = get_transitive_module_deps_rec reg (reg.length + 1) module ⟨∅, ∅, ∅⟩)
    ∧ (∀ (reg : List (String × List String)) (module : String),
        get_transitive_module_deps reg module
          = get_transitive_module_deps reg module)
    ∧ (∀ (reg : List (String × List String)) (mods : Finset String)
          (l : List String),
        IsDepCycle reg l → (∀ m ∈ l, m ∈ mods) →
        dependency_manager_reports_cycle reg mods = true) := by
  refine ⟨?_, fun reg module => rfl, ?_⟩
  · intro reg module fuel hfuel
    have hbound : (regKeys reg \ insert module (∅ : Finset String)).card
        ≤ reg.length := by
      calc (regKeys reg \ insert module (∅ : Finset String)).card
          ≤ (regKeys reg).card := Finset.card_le_card (Finset.sdiff_subset)
        _ ≤ (reg.map Prod.fst).length := List.toFinset_card_le _
        _ = reg.length := List.length_map _ _
    exact (rec_walk_fuel_stable fuel).1 (reg.length + 1) reg module ⟨∅, ∅, ∅⟩
      (show (regKeys reg \ insert module (∅ : Finset String)).card < fuel by omega)
      (show (regKeys reg \ insert module (∅ : Finset String)).card < reg.length + 1
        by omega)
  · intro reg mods l hcyc hmods
    have hsub := cycle_subset_peel_iterate reg mods l hcyc hmods mods.card
    have hne : ((peel_step reg)^[mods.card] mods) ≠ ∅ := by
      intro hempty
      match l, hcyc with
      | a :: xs, _ =>
        have ha : a ∈ (peel_step reg)^[mods.card] mods :=
          hsub (List.mem_toFinset.mpr (List.mem_cons_self _ _))
        rw [hempty] at ha
        exact absurd ha (Finset.not_mem_empty a)
    exact decide_eq_true hne

/-- Witness for C8 at a concrete input: on the two-module cyclic registry
(a depends on b, b depends on a), the traversal gives the same result at fuel
5 as at the bound, and the modelled dependency manager reports the cycle for
the module set containing a and b. -/
theorem transitive_deps_terminate_witness :
    get_transitive_module_deps_rec regCyc 5 "a" ⟨∅, ∅, ∅⟩
      = get_transitive_module_deps_rec regCyc (regCyc.length + 1) "a" ⟨∅, ∅, ∅⟩
    ∧ dependency_manager_reports_cycle regCyc ({"a", "b"} : Finset String) = true :=
  ⟨transitive_deps_terminate.1 regCyc "a" 5 (by decide),
   transitive_deps_terminate.2.2 regCyc {"a", "b"} ["a", "b"]
     (List.Chain.cons (by decide) (List.Chain.cons (by decide) List.Chain.nil))
     (by decide)⟩

/-- C6: get_modules_to_build as written does not collect unknown requested
names: the loop body lacks a continue, so NAMES_TO_MODULES[name] raises
KeyError on the first unknown requested name (first conjunct, against the
registry with modules a and b), never reaching the combined sys.exit,
contradicting the comment directly above it.  Unknown names reached as
dependencies are collected and reported together through the single
"Unknown modules:" sys.exit (second conjunct, the spec's X-depends-on-Y
scenario). -/
theorem unknown_modules_keyerror :
    get_modules_to_build regPlain ["bogus1", "bogus2"]
      = .error (.keyError "bogus1")
    ∧ get_modules_to_build [("X", ["Y"])] ["X"]
      = .error (.sysExit "Unknown modules: Y") := by
  constructor
  · rfl
  · have hloop : modules_loop [("X", ["Y"])] ["X"] ["X"] ⟨∅, ∅, ∅⟩
        = .ok ⟨{"Y"}, {"X"}, ∅⟩ := by
      simp [modules_loop, reg_find, get_transitive_module_deps,
        get_transitive_module_deps_rec, walk_module_deps]
    rw [get_modules_to_build, hloop]
    simp only [Finset.sort_singleton, ne_eq]
    rw [if_pos (by decide)]
    rfl

/-- An index holding a value is within bounds. -/
theorem get?_some_lt {α : Type} {l : List α} {i : Nat} {a : α}
    (h : l.get? i = some a) : i < l.length := by
  by_contra hlt
  rw [List.get?_eq_none.mpr (by omega)] at h
  cases h

/-- Lookups in a prefix survive appending. -/
theorem get?_append_left_of {α : Type} {l₁ l₂ : List α} {i : Nat} {a : α}
    (h : l₁.get? i = some a) : (l₁ ++ l₂).get? i = some a := by
  rw [List.get?_append (get?_some_lt h)]
  exact h

/-- A lookup in an append comes from one of the two parts, with its index
located accordingly. -/
theorem get?_append_cases {α : Type} {l₁ l₂ : List α} {i : Nat} {a : α}
    (h : (l₁ ++ l₂).get? i = some a) :
    (i < l₁.length ∧ l₁.get? i = some a)
    ∨ (l₁.length ≤ i ∧ l₂.get? (i - l₁.length) = some a) := by
  by_cases hi : i < l₁.length
  · exact Or.inl ⟨hi, by rwa [List.get?_append hi] at h⟩
  · exact Or.inr ⟨by omega, by rwa [List.get?_append_right (by omega)] at h⟩

/-- The buildable frontier is drawn from pending. -/
theorem buildable_subset_pending (G : String → Finset String) (st : OrchState) :
    buildable G st ⊆ st.pending :=
  Finset.filter_subset _ _

/-- Every frontier module has all dependencies completed (the defining
filter of the modelled get_buildable). -/
theorem buildable_deps_completed (G : String → Finset String) (st : OrchState) :
    ∀ m ∈ buildable G st, G m ⊆ st.completed :=
  fun _ hm => (Finset.mem_filter.mp hm).2

/-- Skipped frontier modules are frontier modules. -/
theorem skipped_subset (G : String → Finset String) (sd : Bool)
    (sm : Finset String) (st : OrchState) :
    skipped_of G sd sm st ⊆ buildable G st := by
  unfold skipped_of
  split
  · exact Finset.inter_subset_left
  · exact Finset.empty_subset _

/-- Dispatched frontier modules are frontier modules. -/
theorem dispatched_subset (G : String → Finset String) (sd : Bool)
    (sm : Finset String) (st : OrchState) :
    dispatched_of G sd sm st ⊆ buildable G st :=
  Finset.sdiff_subset

/-- Events of a dispatch segment. -/
theorem mem_dispatch_map {s : Finset String} {e : OrchEvent}
    (h : e ∈ (s.sort (· ≤ ·)).map OrchEvent.dispatch) :
    ∃ m ∈ s, e = OrchEvent.dispatch m := by
  rcases List.mem_map.mp h with ⟨m, hm, rfl⟩
  exact ⟨m, (Finset.mem_sort _).mp hm, rfl⟩

/-- Events of a completion segment. -/
theorem mem_complete_map {s : Finset String} {e : OrchEvent}
    (h : e ∈ (s.sort (· ≤ ·)).map OrchEvent.complete) :
    ∃ m ∈ s, e = OrchEvent.complete m := by
  rcases List.mem_map.mp h with ⟨m, hm, rfl⟩
  exact ⟨m, (Finset.mem_sort _).mp hm, rfl⟩

/-- One frontier pass preserves the orchestrator invariant: every module it
dispatches has its whole dependency set already completed and logged before
the dispatch event, and the pending / in-flight / completed partition stays
consistent. -/
theorem frontier_step_inv (G : String → Finset String) (sd : Bool)
    (sm : Finset String) (st : OrchState) (hinv : OrchInv G st) :
    OrchInv G (frontier_step G sd sm st) := by
  have hD := dispatched_subset G sd sm st
  have hK := skipped_subset G sd sm st
  have hbp := buildable_subset_pending G st
  have hDp : dispatched_of G sd sm st ⊆ st.pending := subset_trans hD hbp
  have hKp : skipped_of G sd sm st ⊆ st.pending := subset_trans hK hbp
  have hzone : ∀ (i : Nat) (e : OrchEvent),
      (frontier_step G sd sm st).trace.get? i = some e →
      (i < st.trace.length ∧ st.trace.get? i = some e)
      ∨ (st.trace.length ≤ i ∧ ∃ m ∈ dispatched_of G sd sm st,
          e = OrchEvent.dispatch m)
      ∨ (∃ m ∈ skipped_of G sd sm st, e = OrchEvent.complete m) := by
    intro i e h
    rcases get?_append_cases h with ⟨hi, h12⟩ | ⟨hi, h3⟩
    · rcases get?_append_cases h12 with ⟨hi1, h1⟩ | ⟨hi1, h2⟩
      · exact Or.inl ⟨hi1, h1⟩
      · exact Or.inr (Or.inl ⟨hi1, mem_dispatch_map (List.get?_mem h2)⟩)
    · exact Or.inr (Or.inr (mem_complete_map (List.get?_mem h3)))
  have hlift : ∀ (j : Nat) (e : OrchEvent), st.trace.get? j = some e →
      (frontier_step G sd sm st).trace.get? j = some e := by
    intro j e h
    exact get?_append_left_of (get?_append_left_of h)
  have hmemD : ∀ m ∈ dispatched_of G sd sm st,
      ∃ j, (frontier_step G sd sm st).trace.get? j
        = some (OrchEvent.dispatch m) := by
    intro m hm
    apply List.get?_of_mem
    show OrchEvent.dispatch m ∈ st.trace ++ _ ++ _
    exact List.mem_append.mpr (Or.inl (List.mem_append.mpr (Or.inr
      (List.mem_map.mpr ⟨m, (Finset.mem_sort _).mpr hm, rfl⟩))))
  have hmemK : ∀ m ∈ skipped_of G sd sm st,
      ∃ j, (frontier_step G sd sm st).trace.get? j
        = some (OrchEvent.complete m) := by
    intro m hm
    apply List.get?_of_mem
    show OrchEvent.complete m ∈ st.trace ++ _ ++ _
    exact List.mem_append.mpr (Or.inr
      (List.mem_map.mpr ⟨m, (Finset.mem_sort _).mpr hm, rfl⟩))
  refine ⟨?_, ?_, ?_, ?_, ?_, ?_, ?_, ?_, ?_, ?_⟩
  · show Disjoint (st.pending \ buildable G st)
      (st.inflight ∪ dispatched_of G sd sm st)
    rw [Finset.disjoint_union_right]
    exact ⟨Finset.disjoint_of_subset_left Finset.sdiff_subset hinv.disj_pi,
      Finset.disjoint_of_subset_right hD Finset.sdiff_disjoint⟩
  · show Disjoint (st.pending \ buildable G st)
      (st.completed ∪ skipped_of G sd sm st)
    rw [Finset.disjoint_union_right]
    exact ⟨Finset.disjoint_of_subset_left Finset.sdiff_subset hinv.disj_pc,
      Finset.disjoint_of_subset_right hK Finset.sdiff_disjoint⟩
  · show Disjoint (st.inflight ∪ dispatched_of G sd sm st)
      (st.completed ∪ skipped_of G sd sm st)
    rw [Finset.disjoint_union_left]
    constructor
    · rw [Finset.disjoint_union_right]
      exact ⟨hinv.disj_ic, Finset.disjoint_of_subset_right hKp hinv.disj_pi.symm⟩
    · rw [Finset.disjoint_union_right]
      exact ⟨Finset.disjoint_of_subset_left hDp hinv.disj_pc,
        Finset.sdiff_disjoint⟩
  · intro d hd
    rcases Finset.mem_union.mp hd with h | h
    · rcases hinv.completed_logged d h with ⟨j, hj⟩
      exact ⟨j, hlift j _ hj⟩
    · exact hmemK d h
  · intro m hm
    rcases Finset.mem_union.mp hm with h | h
    · rcases hinv.inflight_dispatched m h with ⟨j, hj⟩
      exact ⟨j, hlift j _ hj⟩
    · exact hmemD m h
  · intro i m h
    rcases hzone i _ h with ⟨hi, h1⟩ | ⟨hge, m', hm', he⟩ | ⟨m', hm', he⟩
    · exact subset_trans (hinv.dispatch_deps_completed i m h1)
        Finset.subset_union_left
    · injection he with hmm
      subst hmm
      exact subset_trans (buildable_deps_completed G st m (hD hm'))
        Finset.subset_union_left
    · exact OrchEvent.noConfusion he
  · intro i m h d hd
    rcases hzone i _ h with ⟨hi, h1⟩ | ⟨hge, m', hm', he⟩ | ⟨m', hm', he⟩
    · rcases hinv.dispatch_after_deps i m h1 d hd with ⟨j, hji, hj⟩
      exact ⟨j, hji, hlift j _ hj⟩
    · injection he with hmm
      subst hmm
      have hcomp : d ∈ st.completed :=
        buildable_deps_completed G st m (hD hm') hd
      rcases hinv.completed_logged d hcomp with ⟨j, hj⟩
      have hjlen := get?_some_lt hj
      exact ⟨j, by omega, hlift j _ hj⟩
    · exact OrchEvent.noConfusion he
  · intro i m h
    rcases hzone i _ h with ⟨hi, h1⟩ | ⟨hge, m', hm', he⟩ | ⟨m', hm', he⟩
    · exact Finset.mem_union_left _ (hinv.install_completed i m h1)
    · exact OrchEvent.noConfusion he
    · exact OrchEvent.noConfusion he
  · intro i m h
    rcases hzone i _ h with ⟨hi, h1⟩ | ⟨hge, m', hm', he⟩ | ⟨m', hm', he⟩
    · rcases hinv.install_after_dispatch i m h1 with ⟨j, hji, hj⟩
      exact ⟨j, hji, hlift j _ hj⟩
    · exact OrchEvent.noConfusion he
    · exact OrchEvent.noConfusion he
  · intro i j m d hd hdisp hinst
    rcases hzone j _ hinst with ⟨hj, hinst1⟩ | ⟨hge, m', hm', he⟩ | ⟨m', hm', he⟩
    · rcases hzone i _ hdisp with ⟨hi, hdisp1⟩ | ⟨hgei, m', hm', he⟩ | ⟨m', hm', he⟩
      · exact hinv.install_before_dependent_dispatch i j m d hd hdisp1 hinst1
      · omega
      · exact OrchEvent.noConfusion he
    · exact OrchEvent.noConfusion he
    · exact OrchEvent.noConfusion he

/-- Retrieving a successful result preserves the orchestrator invariant: the
completed module was in flight (hence dispatched), its install event sits
after its dispatch, and no module that depends on it can already have been
dispatched. -/
theorem complete_step_inv (G : String → Finset String) (module : String)
    (st : OrchState) (hmod : module ∈ st.inflight) (hinv : OrchInv G st) :
    OrchInv G (complete_step module st) := by
  have hz2 : ∀ (k : Nat) (e : OrchEvent),
      [OrchEvent.install module, OrchEvent.complete module].get? k = some e →
      (k = 0 ∧ e = OrchEvent.install module)
      ∨ (k = 1 ∧ e = OrchEvent.complete module) := by
    intro k e h
    match k with
    | 0 =>
      simp only [List.get?] at h
      exact Or.inl ⟨rfl, (Option.some.inj h).symm⟩
    | 1 =>
      simp only [List.get?] at h
      exact Or.inr ⟨rfl, (Option.some.inj h).symm⟩
    | n + 2 => simp [List.get?] at h
  have hzone : ∀ (i : Nat) (e : OrchEvent),
      (complete_step module st).trace.get? i = some e →
      (i < st.trace.length ∧ st.trace.get? i = some e)
      ∨ (st.trace.length ≤ i
          ∧ ((i - st.trace.length = 0 ∧ e = OrchEvent.install module)
            ∨ (i - st.trace.length = 1 ∧ e = OrchEvent.complete module))) := by
    intro i e h
    rcases get?_append_cases h with ⟨hi, h1⟩ | ⟨hi, h2⟩
    · exact Or.inl ⟨hi, h1⟩
    · exact Or.inr ⟨hi, hz2 _ _ h2⟩
  have hlift : ∀ (j : Nat) (e : OrchEvent), st.trace.get? j = some e →
      (complete_step module st).trace.get? j = some e := by
    intro j e h
    exact get?_append_left_of h
  refine ⟨?_, ?_, ?_, ?_, ?_, ?_, ?_, ?_, ?_, ?_⟩
  · show Disjoint st.pending (st.inflight.erase module)
    exact Finset.disjoint_of_subset_right (Finset.erase_subset _ _) hinv.disj_pi
  · show Disjoint st.pending (insert module st.completed)
    rw [Finset.disjoint_insert_right]
    exact ⟨Finset.disjoint_right.mp hinv.disj_pi hmod, hinv.disj_pc⟩
  · show Disjoint (st.inflight.erase module) (insert module st.completed)
    rw [Finset.disjoint_insert_right]
    exact ⟨Finset.not_mem_erase _ _,
      Finset.disjoint_of_subset_left (Finset.erase_subset _ _) hinv.disj_ic⟩
  · intro d hd
    rcases Finset.mem_insert.mp hd with rfl | h
    · refine ⟨st.trace.length + 1, ?_⟩
      show (st.trace ++ [OrchEvent.install _, OrchEvent.complete _]).get?
        (st.trace.length + 1) = _
      rw [List.get?_append_right (by omega)]
      have hone : st.trace.length + 1 - st.trace.length = 1 := by omega
      rw [hone]
      rfl
    · rcases hinv.completed_logged d h with ⟨j, hj⟩
      exact ⟨j, hlift j _ hj⟩
  · intro m hm
    rcases hinv.inflight_dispatched m (Finset.erase_subset _ _ hm) with ⟨j, hj⟩
    exact ⟨j, hlift j _ hj⟩
  · intro i m h
    rcases hzone i _ h with ⟨hi, h1⟩ | ⟨hge, ⟨_, he⟩ | ⟨_, he⟩⟩
    · exact subset_trans (hinv.dispatch_deps_completed i m h1)
        (Finset.subset_insert _ _)
    · exact OrchEvent.noConfusion he
    · exact OrchEvent.noConfusion he
  · intro i m h d hd
    rcases hzone i _ h with ⟨hi, h1⟩ | ⟨hge, ⟨_, he⟩ | ⟨_, he⟩⟩
    · rcases hinv.dispatch_after_deps i m h1 d hd with ⟨j, hji, hj⟩
      exact ⟨j, hji, hlift j _ hj⟩
    · exact OrchEvent.noConfusion he
    · exact OrchEvent.noConfusion he
  · intro i m h
    rcases hzone i _ h with ⟨hi, h1⟩ | ⟨hge, ⟨_, he⟩ | ⟨_, he⟩⟩
    · exact Finset.mem_insert_of_mem (hinv.install_completed i m h1)
    · injection he with hmm
      subst hmm
      exact Finset.mem_insert_self _ _
    · exact OrchEvent.noConfusion he
  · intro i m h
    rcases hzone i _ h with ⟨hi, h1⟩ | ⟨hge, ⟨hk, he⟩ | ⟨_, he⟩⟩
    · rcases hinv.install_after_dispatch i m h1 with ⟨j, hji, hj⟩
      exact ⟨j, hji, hlift j _ hj⟩
    · injection he with hmm
      subst hmm
      rcases hinv.inflight_dispatched m hmod with ⟨j, hj⟩
      have hjlen := get?_some_lt hj
      exact ⟨j, by omega, hlift j _ hj⟩
    · exact OrchEvent.noConfusion he
  · intro i j m d hd hdisp hinst
    rcases hzone i _ hdisp with ⟨hi, hdisp1⟩ | ⟨hge, ⟨_, he⟩ | ⟨_, he⟩⟩
    · rcases hzone j _ hinst with ⟨hj, hinst1⟩ | ⟨hgej, ⟨hk, he⟩ | ⟨_, he⟩⟩
      · exact hinv.install_before_dependent_dispatch i j m d hd hdisp1 hinst1
      · exfalso
        injection he with hmm
        subst hmm
        have hcomp : d ∈ st.completed :=
          hinv.dispatch_deps_completed i m hdisp1 hd
        exact Finset.disjoint_left.mp hinv.disj_ic hmod hcomp
      · exact OrchEvent.noConfusion he
    · exact OrchEvent.noConfusion he
    · exact OrchEvent.noConfusion he

/-- The launch_buildable loop preserves the orchestrator invariant (strong
induction on the size of pending, which each frontier pass strictly
shrinks). -/
theorem launch_buildable_inv :
    ∀ (n : Nat) (G : String → Finset String) (sd : Bool) (sm : Finset String)
      (st : OrchState), st.pending.card ≤ n → OrchInv G st →
      OrchInv G (launch_buildable G sd sm st) := by
  intro n
  induction n with
  | zero =>
    intro G sd sm st hcard hinv
    rw [launch_buildable]
    have hp : st.pending = ∅ := Finset.card_eq_zero.mp (by omega)
    have hb : buildable G st = ∅ := by
      have hsub := buildable_subset_pending G st
      rw [hp] at hsub
      exact Finset.subset_empty.mp hsub
    rw [dif_pos hb]
    exact hinv
  | succ k ih =>
    intro G sd sm st hcard hinv
    rw [launch_buildable]
    by_cases hb : buildable G st = ∅
    · rw [dif_pos hb]
      exact hinv
    · rw [dif_neg hb]
      have hlt : (st.pending \ buildable G st).card < st.pending.card :=
        Finset.card_lt_card (Finset.sdiff_ssubset (buildable_subset_pending G st)
          (Finset.nonempty_iff_ne_empty.mpr hb))
      exact ih G sd sm (frontier_step G sd sm st)
        (show (st.pending \ buildable G st).card ≤ k by omega)
        (frontier_step_inv G sd sm st hinv)

/-- The wait_for_build loop preserves the orchestrator invariant against
every result schedule, and so does the state of its outcome. -/
theorem wait_for_build_inv :
    ∀ (sched : List (String × Bool)) (G : String → Finset String) (sd : Bool)
      (sm : Finset String) (st : OrchState), OrchInv G st →
      OrchInv G ((wait_for_build G sd sm sched st).state) := by
  intro sched
  induction sched with
  | nil =>
    intro G sd sm st hinv
    rw [wait_for_build]
    by_cases hq : st.inflight = ∅
    · rw [if_pos hq]
      exact hinv
    · rw [if_neg hq]
      exact hinv
  | cons entry rest ih =>
    intro G sd sm st hinv
    obtain ⟨module, ok⟩ := entry
    rw [wait_for_build]
    by_cases hq : st.inflight = ∅
    · rw [if_pos hq]
      exact hinv
    · rw [if_neg hq]
      by_cases hmem : module ∈ st.inflight
      · rw [if_pos hmem]
        cases ok with
        | true =>
          rw [if_pos rfl]
          exact ih G sd sm _ (launch_buildable_inv
            (complete_step module st).pending.card G sd sm _ (le_refl _)
            (complete_step_inv G module st hmem hinv))
        | false =>
          rw [if_neg (by simp)]
          exact hinv
      · rw [if_neg hmem]
        exact ih G sd sm st hinv

/-- The fresh DependencyManager state of a run satisfies the orchestrator
invariant. -/
theorem initial_inv (G : String → Finset String) (modules : Finset String) :
    OrchInv G ⟨modules, ∅, ∅, []⟩ := by
  refine ⟨?_, ?_, ?_, ?_, ?_, ?_, ?_, ?_, ?_, ?_⟩
  · exact Finset.disjoint_empty_right _
  · exact Finset.disjoint_empty_right _
  · exact Finset.disjoint_empty_right _
  · intro d hd
    exact absurd hd (Finset.not_mem_empty d)
  · intro m hm
    exact absurd hm (Finset.not_mem_empty m)
  · intro i m h
    simp [List.get?] at h
  · intro i m h d hd
    simp [List.get?] at h
  · intro i m h
    simp [List.get?] at h
  · intro i m h
    simp [List.get?] at h
  · intro i j m d hd hdisp hinst
    simp [List.get?] at hdisp

/-- C1: in every run of the build orchestrator (launch_buildable driven by
wait_for_build) — for every dependency graph, requested module set,
skip-deps configuration and result schedule — a module is dispatched to the
work queue only after every one of its dependencies carries an earlier
deps.complete event in the trace (first conjunct).  Consequently module
install order respects the dependency partial order: each worker runs
module.install() between the module's dispatch and its completion event, so
the recorded install events of a module and of any of its dependencies are
strictly ordered (second conjunct). -/
theorem orchestrator_never_dispatches_early :
    ∀ (G : String → Finset String) (skip_deps : Bool)
      (skip_modules : Finset String) (modules : Finset String)
      (sched : List (String × Bool)),
      (∀ i m,
        (build_ndk_run G skip_deps skip_modules modules sched).state.trace.get? i
          = some (OrchEvent.dispatch m) →
        ∀ d ∈ G m, ∃ j < i,
          (build_ndk_run G skip_deps skip_modules modules sched).state.trace.get? j
            = some (OrchEvent.complete d))
      ∧ (∀ i j m d, d ∈ G m →
        (build_ndk_run G skip_deps skip_modules modules sched).state.trace.get? i
          = some (OrchEvent.install m) →
        (build_ndk_run G skip_deps skip_modules modules sched).state.trace.get? j
          = some (OrchEvent.install d) →
        j < i) := by
  intro G sd sm modules sched
  have hinv : OrchInv G ((build_ndk_run G sd sm modules sched).state) := by
    unfold build_ndk_run
    exact wait_for_build_inv sched G sd sm _
      (launch_buildable_inv (⟨modules, ∅, ∅, []⟩ : OrchState).pending.card G sd sm _
        (le_refl _) (initial_inv G modules))
  constructor
  · exact hinv.dispatch_after_deps
  · intro i j m d hd him hid
    rcases hinv.install_after_dispatch i m him with ⟨k, hki, hdisp⟩
    have := hinv.install_before_dependent_dispatch k j m d hd hdisp hid
    omega

/-- C2: when the first retrieved result is a failure, wait_for_build prints
"Build failed:" with the failing module, surfaces that module's captured log
via log_build_failure, and exits the run with code 1 at once: the returned
state is the input state unchanged (the module is not marked complete and no
further module is dispatched), and the rest of the schedule — any
already-dispatched sibling results — is never consumed. -/
theorem build_failure_fail_fast :
    ∀ (G : String → Finset String) (skip_deps : Bool)
      (skip_modules : Finset String) (st : OrchState) (module : String)
      (rest : List (String × Bool)),
      module ∈ st.inflight →
      wait_for_build G skip_deps skip_modules ((module, false) :: rest) st
        = .failed ⟨"Build failed: " ++ module, module, 1⟩ st := by
  intro G sd sm st module rest hmem
  rw [wait_for_build, if_neg (Finset.ne_empty_of_mem hmem), if_pos hmem,
    if_neg (by simp)]

/-- Witness for C2 at a concrete input: a failed clang result exits with code
1, the state (with clang still only dispatched) unchanged, regardless of the
remaining schedule. -/
theorem build_failure_fail_fast_witness :
    wait_for_build Gdemo false ∅ [("clang", false), ("b", true)]
        ⟨∅, {"clang"}, ∅, [OrchEvent.dispatch "clang"]⟩
      = .failed ⟨"Build failed: clang", "clang", 1⟩
          ⟨∅, {"clang"}, ∅, [OrchEvent.dispatch "clang"]⟩ :=
  build_failure_fail_fast Gdemo false ∅
    ⟨∅, {"clang"}, ∅, [OrchEvent.dispatch "clang"]⟩ "clang" [("b", true)]
    (by decide)

/-- Evaluation of the demo orchestrator run (b depends on a, both succeed):
a is dispatched, installed and completed, then b. -/
theorem runDemo_eval :
    build_ndk_run Gdemo false ∅ {"a", "b"} schedDemo
      = .finished ⟨∅, ∅, {"a", "b"},
          [OrchEvent.dispatch "a", OrchEvent.install "a", OrchEvent.complete "a",
           OrchEvent.dispatch "b", OrchEvent.install "b",
           OrchEvent.complete "b"]⟩ := by
  have hb0 : buildable Gdemo ⟨{"a", "b"}, ∅, ∅, []⟩ = {"a"} := by decide
  have hd0 : dispatched_of Gdemo false ∅ ⟨{"a", "b"}, ∅, ∅, []⟩ = {"a"} := by decide
  have hk0 : skipped_of Gdemo false ∅ ⟨{"a", "b"}, ∅, ∅, []⟩ = ∅ := by decide
  have hstep0 : frontier_step Gdemo false ∅ ⟨{"a", "b"}, ∅, ∅, []⟩
      = ⟨{"b"}, {"a"}, ∅, [OrchEvent.dispatch "a"]⟩ := by
    simp only [frontier_step, hb0, hd0, hk0, Finset.sort_singleton,
      Finset.sort_empty, List.map_cons, List.map_nil, List.nil_append,
      List.append_nil]
    decide
  have hlaunchA : launch_buildable Gdemo false ∅ ⟨{"a", "b"}, ∅, ∅, []⟩
      = ⟨{"b"}, {"a"}, ∅, [OrchEvent.dispatch "a"]⟩ := by
    rw [launch_buildable, dif_neg (by decide), hstep0,
      launch_buildable, dif_pos (by decide)]
  have hcsA : complete_step "a" ⟨{"b"}, {"a"}, ∅, [OrchEvent.dispatch "a"]⟩
      = ⟨{"b"}, ∅, {"a"}, [OrchEvent.dispatch "a", OrchEvent.install "a",
          OrchEvent.complete "a"]⟩ := by
    simp only [complete_step, OrchState.mk.injEq]
    repeat' constructor
    all_goals first | rfl | decide
  have hb1 : buildable Gdemo ⟨{"b"}, ∅, {"a"}, [OrchEvent.dispatch "a",
      OrchEvent.install "a", OrchEvent.complete "a"]⟩ = {"b"} := by decide
  have hd1 : dispatched_of Gdemo false ∅ ⟨{"b"}, ∅, {"a"}, [OrchEvent.dispatch "a",
      OrchEvent.install "a", OrchEvent.complete "a"]⟩ = {"b"} := by decide
  have hk1 : skipped_of Gdemo false ∅ ⟨{"b"}, ∅, {"a"}, [OrchEvent.dispatch "a",
      OrchEvent.install "a", OrchEvent.complete "a"]⟩ = ∅ := by decide
  have hstep1 : frontier_step Gdemo false ∅ ⟨{"b"}, ∅, {"a"},
      [OrchEvent.dispatch "a", OrchEvent.install "a", OrchEvent.complete "a"]⟩
      = ⟨∅, {"b"}, {"a"}, [OrchEvent.dispatch "a", OrchEvent.install "a",
          OrchEvent.complete "a", OrchEvent.dispatch "b"]⟩ := by
    simp only [frontier_step, hb1, hd1, hk1, Finset.sort_singleton,
      Finset.sort_empty, List.map_cons, List.map_nil, List.append_nil]
    decide
  have hlaunchB : launch_buildable Gdemo false ∅ ⟨{"b"}, ∅, {"a"},
      [OrchEvent.dispatch "a", OrchEvent.install "a", OrchEvent.complete "a"]⟩
      = ⟨∅, {"b"}, {"a"}, [OrchEvent.dispatch "a", OrchEvent.install "a",
          OrchEvent.complete "a", OrchEvent.dispatch "b"]⟩ := by
    rw [launch_buildable, dif_neg (by decide), hstep1,
      launch_buildable, dif_pos (by decide)]
  have hcsB : complete_step "b" ⟨∅, {"b"}, {"a"}, [OrchEvent.dispatch "a",
      OrchEvent.install "a", OrchEvent.complete "a", OrchEvent.dispatch "b"]⟩
      = ⟨∅, ∅, {"a", "b"}, [OrchEvent.dispatch "a", OrchEvent.install "a",
          OrchEvent.complete "a", OrchEvent.dispatch "b", OrchEvent.install "b",
          OrchEvent.complete "b"]⟩ := by
    simp only [complete_step, OrchState.mk.injEq]
    repeat' constructor
    all_goals first | rfl | decide
  have hlaunchC : launch_buildable Gdemo false ∅ ⟨∅, ∅, {"a", "b"},
      [OrchEvent.dispatch "a", OrchEvent.install "a", OrchEvent.complete "a",
       OrchEvent.dispatch "b", OrchEvent.install "b", OrchEvent.complete "b"]⟩
      = ⟨∅, ∅, {"a", "b"}, [OrchEvent.dispatch "a", OrchEvent.install "a",
          OrchEvent.complete "a", OrchEvent.dispatch "b", OrchEvent.install "b",
          OrchEvent.complete "b"]⟩ := by
    rw [launch_buildable, dif_pos (by decide)]
  show wait_for_build Gdemo false ∅ schedDemo
      (launch_buildable Gdemo false ∅ ⟨{"a", "b"}, ∅, ∅, []⟩) = _
  rw [hlaunchA]
  show wait_for_build Gdemo false ∅ (("a", true) :: [("b", true)]) _ = _
  rw [wait_for_build, if_neg (by decide), if_pos (by decide), if_pos rfl,
    hcsA, hlaunchB]
  rw [wait_for_build, if_neg (by decide), if_pos (by decide), if_pos rfl,
    hcsB, hlaunchC]
  rw [wait_for_build, if_pos (by decide)]

/-- Witness for C1 at a concrete input: in the demo run, the dispatch of b at
trace position 3 is preceded by a completion of its dependency a. -/
theorem orchestrator_never_dispatches_early_witness :
    ∃ j < 3,
      (build_ndk_run Gdemo false ∅ {"a", "b"} schedDemo).state.trace.get? j
        = some (OrchEvent.complete "a") :=
  (orchestrator_never_dispatches_early Gdemo false ∅ {"a", "b"} schedDemo).1
    3 "b" (by rw [runDemo_eval]; rfl) "a" (by decide)
